import Mathlib

/-! lightshowpi: schedule loader, conductor, Raspberry Pi lights and line manager

A shallow embedding of `light/light.go`, `light/rpi/basic_light.go` and
`light/rpi/manager.go`, followed by the properties established about them.

Conventions of the embedding

* A Go `error` result is an `Option` of an error value (`none` is `nil`) and a
  `(value, error)` result an `Except` in package `rpi`; package `light`, where a slice
  index can be out of range, uses `Result`, which adds the run-time panic.
* Each error value keeps the arguments of the `fmt.Errorf` call that builds it, in
  the order of the format string.
* Everything the environment decides (whether a hardware write succeeds, how the
  two goroutines of a tick interleave, which case a `select` takes) is an explicit
  argument, so every function is total and computable.
* Fields marked *ghost* do not exist in the Go code; they only record what the
  code did (which calls were made), so that properties about calls can be stated.
-/

namespace LightShowPi

/-! ## `light/rpi`: the GPIO line, `BasicLight`, `Manager` -/

namespace rpi

/-- The part of a `gpiod.Line` the program depends on. -/
structure Line where
  /-- the value most recently written to the line with success -/
  value : Int
  /-- ghost: how many times `SetValue` was invoked on the line -/
  setCalls : Nat
deriving DecidableEq, Repr

/-- Method `line.SetValue(v)`; `ok` says whether the kernel accepts the write. The result is
`true` when the returned error is `nil`. -/
def Line.SetValue (l : Line) (v : Int) (ok : Bool) : Bool × Line :=
  if ok then (true, { value := v, setCalls := l.setCalls + 1 })
  else (false, { value := l.value, setCalls := l.setCalls + 1 })

/-- Result of `chip.RequestLine(pin, gpiod.AsOutput(0))` on success: the line is configured as an
output and driven to the value 0. -/
def requestedAsOutput0 : Line := { value := 0, setCalls := 0 }

/-- Errors built in package `rpi`. -/
inductive Error where
  /-- Format `"failed to set pin %d to low (on): %w"` -/
  | setLowFailed (pin : Int)
  /-- Format `"failed to set pin %d to high (on): %w"` -/
  | setHighFailed (pin : Int)
  /-- Format `"%w pin %d"` wrapping `ErrLineAlreadyRequested` -/
  | lineAlreadyRequested (pin : Int)
  /-- Format `"failed to request line for pin %d: %w"` -/
  | requestFailed (pin : Int)
  /-- Format `"%w pin %d"` wrapping `ErrLineNotRequested` -/
  | lineNotRequested (pin : Int)
  /-- the error returned by `line.Close()` -/
  | lineCloseFailed
deriving DecidableEq, Repr

/-- Type `rpi.BasicLight` (the mutex and the back pointer to the manager carry no data). -/
structure BasicLight where
  pin : Int
  line : Line
  isOn : Bool
deriving DecidableEq, Repr

/-- Method `(*BasicLight).On`; `hwOk` is the outcome of the hardware write, used only when a
write is attempted. -/
def BasicLight.On (bl : BasicLight) (hwOk : Bool) : Option Error × BasicLight :=
  if bl.isOn then (none, bl)
  else
    match bl.line.SetValue 0 hwOk with
    | (false, line) => (some (.setLowFailed bl.pin), { bl with line := line })
    | (true, line) => (none, { bl with line := line, isOn := true })

/-- Method `(*BasicLight).Off`. -/
def BasicLight.Off (bl : BasicLight) (hwOk : Bool) : Option Error × BasicLight :=
  if !bl.isOn then (none, bl)
  else
    match bl.line.SetValue 1 hwOk with
    | (false, line) => (some (.setHighFailed bl.pin), { bl with line := line })
    | (true, line) => (none, { bl with line := line, isOn := false })

/-- Method `(*BasicLight).State`: the cached flag, never an error. -/
def BasicLight.State (bl : BasicLight) : Bool × Option Error := (bl.isOn, none)

/-- Type `rpi.Manager`. A line stored in the map is never `nil` (`requestLine` stores only what
a successful `chip.RequestLine` returned), so an absent key and a `nil` value coincide. -/
structure Manager where
  /-- the map `lines` -/
  lines : Int → Option Line
  /-- ghost: pins of the lines obtained from the chip on which `Close` has not been
  invoked yet, oldest first -/
  held : List Int

/-- Function `NewManager` on success: an empty map. -/
def NewManager : Manager := { lines := fun _ => none, held := [] }

/-- Method `(*Manager).requestLine`; `chipOk` is the outcome of `chip.RequestLine`, used only
when the chip is asked. -/
def Manager.requestLine (m : Manager) (pin : Int) (chipOk : Bool) : Except Error Line × Manager :=
  match m.lines pin with
  | some _ => (.error (.lineAlreadyRequested pin), m)
  | none =>
    if chipOk then
      (.ok requestedAsOutput0,
        { lines := Function.update m.lines pin (some requestedAsOutput0),
          held := m.held ++ [pin] })
    else (.error (.requestFailed pin), m)

/-- Method `(*Manager).GetBasicLight`: the struct literal leaves `isOn` at its zero value. -/
def Manager.GetBasicLight (m : Manager) (pin : Int) (chipOk : Bool) :
    Except Error BasicLight × Manager :=
  match m.requestLine pin chipOk with
  | (.error e, m') => (.error e, m')
  | (.ok line, m') => (.ok { pin := pin, line := line, isOn := false }, m')

/-- Method `(*Manager).closeLineHelper`; `closeOk` is the outcome of `line.Close()`. -/
def Manager.closeLineHelper (m : Manager) (pin : Int) (closeOk : Bool) : Option Error × Manager :=
  match m.lines pin with
  | none => (some (.lineNotRequested pin), m)
  | some _ =>
    (if closeOk then none else some .lineCloseFailed,
      { lines := Function.update m.lines pin none, held := m.held.erase pin })

/-- Method `(*Manager).closeLine`: `closeLineHelper` under the lock. -/
def Manager.closeLine (m : Manager) (pin : Int) (closeOk : Bool) : Option Error × Manager :=
  m.closeLineHelper pin closeOk

/-- Method `(*BasicLight).Close`. -/
def BasicLight.Close (bl : BasicLight) (m : Manager) (closeOk : Bool) : Option Error × Manager :=
  m.closeLine bl.pin closeOk

/-- A call made on a light by its user. -/
inductive LightCall where
  | on (hwOk : Bool)
  | off (hwOk : Bool)
deriving DecidableEq, Repr

/-- The light after one call, the returned error dropped. -/
def BasicLight.call (bl : BasicLight) : LightCall → BasicLight
  | .on hwOk => (bl.On hwOk).2
  | .off hwOk => (bl.Off hwOk).2

/-- The light after a sequence of calls. -/
def BasicLight.calls (bl : BasicLight) (cs : List LightCall) : BasicLight :=
  cs.foldl BasicLight.call bl

/-- The cached flag agrees with the line: `isOn` exactly when the last value written with
success is 0 (low, on). -/
def BasicLight.cacheAgrees (bl : BasicLight) : Prop := bl.isOn = true ↔ bl.line.value = 0

instance (bl : BasicLight) : Decidable bl.cacheAgrees := by
  unfold BasicLight.cacheAgrees; infer_instance

/-- A call made on the manager. -/
inductive ManagerCall where
  | request (pin : Int) (chipOk : Bool)
  | close (pin : Int) (closeOk : Bool)
deriving DecidableEq, Repr

/-- The manager after one call. -/
def Manager.call (m : Manager) : ManagerCall → Manager
  | .request pin chipOk => (m.requestLine pin chipOk).2
  | .close pin closeOk => (m.closeLine pin closeOk).2

/-- The manager reached from `NewManager` by a sequence of calls. -/
def Manager.after (cs : List ManagerCall) : Manager :=
  cs.foldl Manager.call NewManager

end rpi

/-! ## `light`: the schedule, its loader and the conductor -/

namespace light

/-- The value of `ctx.Err()` once the context is done. -/
inductive CtxError where
  | canceled
  | deadlineExceeded
deriving DecidableEq, Repr

/-- Errors built in package `light`. -/
inductive Error where
  /-- Format `"failed to open basic light conductor schedule file at %s: %w"` -/
  | openFailed (filePath : String)
  /-- Format `"failed to get header for basic light conductor schedule file %s: %w"` -/
  | headerFailed (filePath : String)
  /-- Format `"failed to get record at line %d of basic light conductor schedule file %s: %w"` -/
  | recordFailed (lineNumber : Nat) (filePath : String)
  /-- Format `"invalid setting %s at line %d column %d of basic light conductor schedule file %s: %w"` -/
  | invalidSetting (val : String) (lineNumber column : Nat) (filePath : String)
  /-- Format `"invalid alias %s for basic light provided at schedule index %d"` -/
  | invalidAlias (name : String) (i : Nat)
  /-- Format `"failed to turn off basic light alias %s: %w"` -/
  | turnOffFailed (name : String) (cause : rpi.Error)
  /-- Format `"failed to turn on basic light alias %s: %w"` -/
  | turnOnFailed (name : String) (cause : rpi.Error)
  /-- Format `"schedule for on/off light aliases do not have the same amount of entries! on: %d off: %d"` -/
  | lengthMismatch (onLen offLen : Nat)
  /-- Value of `ctx.Err()` -/
  | context (cause : CtxError)
deriving DecidableEq, Repr

/-- How a call ends: it returns a value, returns an error, or the process dies of a
run-time panic (a slice index out of range). -/
inductive Result (α : Type) where
  | ok (a : α)
  | fail (e : Error)
  | crash
deriving DecidableEq, Repr

/-- Type `BasicLightConductorSchedule`. -/
structure BasicLightConductorSchedule where
  On : List (List String)
  Off : List (List String)
deriving DecidableEq, Repr

/-- What the loader observes of the file system and of `encoding/csv`. -/
structure ScheduleFile where
  /-- whether `os.Open` succeeds -/
  opens : Bool
  /-- the first `csvReader.Read()`: the header record, or `none` for an error -/
  header : Option (List String)
  /-- the later `csvReader.Read()` results in order, `none` for an error other than
  `io.EOF`; once the list is used up, `Read` returns `io.EOF` -/
  reads : List (Option (List String))
deriving DecidableEq, Repr

/-- The `for columnNumber, val := range record` loop of the loader, from column
`columnNumber` on; `header[columnNumber]` panics when out of range. -/
def rangeRecord (header : List String) (filePath : String) (lineNumber : Nat) :
    List String → Nat → List String → List String → Result (List String × List String)
  | [], _, onRow, offRow => .ok (onRow, offRow)
  | val :: record, columnNumber, onRow, offRow =>
    if val = "on" then
      match header[columnNumber]? with
      | some name => rangeRecord header filePath lineNumber record (columnNumber + 1)
          (onRow ++ [name]) offRow
      | none => .crash
    else if val = "off" then
      match header[columnNumber]? with
      | some name => rangeRecord header filePath lineNumber record (columnNumber + 1)
          onRow (offRow ++ [name])
      | none => .crash
    else .fail (.invalidSetting val lineNumber (columnNumber + 1) filePath)

/-- The `for lineNumber := 2; true; lineNumber++` loop of the loader. -/
def readRecords (header : List String) (filePath : String) :
    List (Option (List String)) → Nat → BasicLightConductorSchedule →
      Result BasicLightConductorSchedule
  | [], _, schedule => .ok schedule
  | none :: _, lineNumber, _ => .fail (.recordFailed lineNumber filePath)
  | some record :: reads, lineNumber, schedule =>
    match rangeRecord header filePath lineNumber record 0 [] [] with
    | .ok (onRow, offRow) =>
      readRecords header filePath reads (lineNumber + 1)
        { On := schedule.On ++ [onRow], Off := schedule.Off ++ [offRow] }
    | .fail e => .fail e
    | .crash => .crash

/-- Function `NewBasicLightConductorScheduleFromFile`. -/
def NewBasicLightConductorScheduleFromFile (filePath : String) (file : ScheduleFile) :
    Result BasicLightConductorSchedule :=
  if !file.opens then .fail (.openFailed filePath)
  else
    match file.header with
    | none => .fail (.headerFailed filePath)
    | some header => readRecords header filePath file.reads 2 { On := [], Off := [] }

/-- A file that opens and parses into the header `header` and the data records `records`. -/
def ScheduleFile.ofRecords (header : List String) (records : List (List String)) : ScheduleFile :=
  { opens := true, header := some header, reads := records.map some }

/-- The aliases of the columns whose cell is `v`, in increasing column order: the header is
paired with the record column by column and the columns holding `v` are kept. -/
def aliasesWhere (v : String) (header record : List String) : List String :=
  ((header.zip record).filter (fun p => p.2 = v)).map Prod.fst

/-- Which of the two operations a goroutine of a tick applies. -/
inductive Op where
  | on
  | off
deriving DecidableEq, Repr

/-- An invocation of `On` or `Off` on the light registered under `name`, made while
applying tick `tick`. -/
structure Call where
  tick : Nat
  name : String
  op : Op
deriving DecidableEq, Repr

/-- Type `BasicLightConductor`, with every light of the registry held by value under its
alias (in `main` each alias gets a light of its own from the manager). -/
structure BasicLightConductor where
  basicLights : String → Option rpi.BasicLight
  schedule : BasicLightConductorSchedule
  /-- ghost: the `On`/`Off` invocations made so far, oldest first -/
  calls : List Call
  /-- ghost: the arguments of the `setStatesForSecondInterval` invocations so far -/
  ticks : List Nat
  /-- ghost: the loop indices whose `select` statement was entered so far -/
  selects : List Nat

/-- Function `NewBasicLightConductor`. -/
def NewBasicLightConductor (basicLights : String → Option rpi.BasicLight)
    (schedule : BasicLightConductorSchedule) : BasicLightConductor :=
  { basicLights := basicLights, schedule := schedule, calls := [], ticks := [], selects := [] }

/-- The channels found ready when the `select` of `Start` proceeds (it blocks until one is). -/
inductive SelectReady where
  /-- only `ctx.Done()` is ready -/
  | done
  /-- only `ticker.C` is ready -/
  | tick
  /-- both are ready and Go picks one of the two cases at random: `takeDone` says which -/
  | both (takeDone : Bool)
deriving DecidableEq, Repr

/-- Whether the context is done at that `select`. -/
def SelectReady.ctxDone : SelectReady → Bool
  | .done => true
  | .tick => false
  | .both _ => true

/-- Whether the ticker has fired at that `select`. -/
def SelectReady.timerReady : SelectReady → Bool
  | .done => false
  | .tick => true
  | .both _ => true

/-- The case the `select` runs. -/
def SelectReady.takesDone : SelectReady → Bool
  | .done => true
  | .tick => false
  | .both takeDone => takeDone

/-- Everything a run of the conductor leaves to its environment. -/
structure Env where
  /-- outcome of the hardware write attempted by the `n`-th `On`/`Off` invocation of the
  run, counted from the length of the ghost field `calls` -/
  hwOk : Nat → Bool
  /-- tick `i`: the order in which the two goroutines take their steps, `true` for the one
  ranging over `Off[i]`; when the list is used up that one runs first -/
  order : Nat → List Bool
  /-- tick `i`, when both goroutines return an error: whether the one ranging over `Off[i]`
  reaches the `sync.Once` of the errgroup first -/
  offErrFirst : Nat → Bool
  /-- the channels ready at the `select` of loop index `i` -/
  ready : Nat → SelectReady
  /-- the value of `ctx.Err()` once the context is done -/
  ctxErr : CtxError

/-- The device method a goroutine calls. -/
def Op.apply : Op → rpi.BasicLight → Bool → Option rpi.Error × rpi.BasicLight
  | .on, basicLight, hwOk => basicLight.On hwOk
  | .off, basicLight, hwOk => basicLight.Off hwOk

/-- The error a goroutine returns when the device method fails. -/
def Op.wrap : Op → String → rpi.Error → Error
  | .on, name, cause => .turnOnFailed name cause
  | .off, name, cause => .turnOffFailed name cause

/-- One iteration of the `range` loop of a goroutine of `setStatesForSecondInterval`: the
registry lookup, then the device call. `some e` means the goroutine returns `e`. -/
def visit (env : Env) (i : Nat) (op : Op) (name : String) (blc : BasicLightConductor) :
    Option Error × BasicLightConductor :=
  match blc.basicLights name with
  | none => (some (.invalidAlias name i), blc)
  | some basicLight =>
    match op.apply basicLight (env.hwOk blc.calls.length) with
    | (err, basicLight') =>
      (err.map (op.wrap name),
        { blc with
          basicLights := Function.update blc.basicLights name (some basicLight')
          calls := blc.calls ++ [{ tick := i, name := name, op := op }] })

/-- A goroutine ranging over `row` while the other one takes no step. -/
def rangeAlone (env : Env) (i : Nat) (op : Op) :
    List String → BasicLightConductor → Option Error × BasicLightConductor
  | [], blc => (none, blc)
  | name :: row, blc =>
    match visit env i op name blc with
    | (some e, blc') => (some e, blc')
    | (none, blc') => rangeAlone env i op row blc'

/-- How the two goroutines of a tick end. -/
inductive TickEnd where
  /-- both returned, with these errors -/
  | returned (offErr onErr : Option Error)
  /-- one of them indexed the schedule out of range: the process dies -/
  | crashed
deriving DecidableEq, Repr

/-- The Off goroutine has returned `offErr`; the On goroutine runs from the start of what is
left of its row, `none` when `schedule.On[i]` is out of range. -/
def finishOn (env : Env) (i : Nat) (offErr : Option Error) :
    Option (List String) → BasicLightConductor → TickEnd × BasicLightConductor
  | none, blc => (.crashed, blc)
  | some onRow, blc =>
    match rangeAlone env i .on onRow blc with
    | (onErr, blc') => (.returned offErr onErr, blc')

/-- The On goroutine has returned `onErr`; the Off goroutine runs on what is left of its row,
`none` when `schedule.Off[i]` is out of range. -/
def finishOff (env : Env) (i : Nat) (onErr : Option Error) :
    Option (List String) → BasicLightConductor → TickEnd × BasicLightConductor
  | none, blc => (.crashed, blc)
  | some offRow, blc =>
    match rangeAlone env i .off offRow blc with
    | (offErr, blc') => (.returned offErr onErr, blc')

/-- The two goroutines started by `setStatesForSecondInterval(i)`, interleaved in the given
order. A row is `none` when indexing the schedule at `i` panics, which happens at the first
step of that goroutine. -/
def interleave (env : Env) (i : Nat) :
    List Bool → Option (List String) → Option (List String) → BasicLightConductor →
      TickEnd × BasicLightConductor
  | [], none, _, blc => (.crashed, blc)
  | [], some offRow, onRow, blc =>
    match rangeAlone env i .off offRow blc with
    | (offErr, blc') => finishOn env i offErr onRow blc'
  | true :: _, none, _, blc => (.crashed, blc)
  | true :: _, some [], onRow, blc => finishOn env i none onRow blc
  | true :: order, some (name :: offRow), onRow, blc =>
    match visit env i .off name blc with
    | (some e, blc') => finishOn env i (some e) onRow blc'
    | (none, blc') => interleave env i order (some offRow) onRow blc'
  | false :: _, _, none, blc => (.crashed, blc)
  | false :: _, offRow, some [], blc => finishOff env i none offRow blc
  | false :: order, offRow, some (name :: onRow), blc =>
    match visit env i .on name blc with
    | (some e, blc') => finishOff env i (some e) offRow blc'
    | (none, blc') => interleave env i order offRow (some onRow) blc'

/-- Method `errGroup.Wait()`: the first error handed to the group, `nil` when there is none. -/
def wait (offErrFirst : Bool) : Option Error → Option Error → Option Error
  | none, none => none
  | some offErr, none => some offErr
  | none, some onErr => some onErr
  | some offErr, some onErr => some (if offErrFirst then offErr else onErr)

/-- Method `(*BasicLightConductor).setStatesForSecondInterval`. -/
def BasicLightConductor.setStatesForSecondInterval (blc : BasicLightConductor) (env : Env)
    (i : Nat) : Result Unit × BasicLightConductor :=
  match interleave env i (env.order i) blc.schedule.Off[i]? blc.schedule.On[i]?
      { blc with ticks := blc.ticks ++ [i] } with
  | (.crashed, blc') => (.crash, blc')
  | (.returned offErr onErr, blc') =>
    match wait (env.offErrFirst i) offErr onErr with
    | none => (.ok (), blc')
    | some e => (.fail e, blc')

/-- The `for i := 1; i < scheduleLen; i++` loop of `Start`, with `n` iterations left to run
from index `i`. -/
def BasicLightConductor.tickLoop (env : Env) :
    Nat → Nat → BasicLightConductor → Result Unit × BasicLightConductor
  | 0, _, blc => (.ok (), blc)
  | n + 1, i, blc =>
    if (env.ready i).takesDone then
      (.fail (.context env.ctxErr), { blc with selects := blc.selects ++ [i] })
    else
      match BasicLightConductor.setStatesForSecondInterval
          { blc with selects := blc.selects ++ [i] } env i with
      | (.ok _, blc') => BasicLightConductor.tickLoop env n (i + 1) blc'
      | (.fail e, blc') => (.fail e, blc')
      | (.crash, blc') => (.crash, blc')

/-- Method `(*BasicLightConductor).Start`. -/
def BasicLightConductor.Start (blc : BasicLightConductor) (env : Env) :
    Result Unit × BasicLightConductor :=
  let scheduleLen := blc.schedule.Off.length
  let onLen := blc.schedule.On.length
  if scheduleLen ≠ onLen then (.fail (.lengthMismatch onLen scheduleLen), blc)
  else
    match blc.setStatesForSecondInterval env 0 with
    | (.ok _, blc') => BasicLightConductor.tickLoop env (scheduleLen - 1) 1 blc'
    | (.fail e, blc') => (.fail e, blc')
    | (.crash, blc') => (.crash, blc')

/-- The cached flag of the light registered under `name`, when there is one. -/
def BasicLightConductor.state (blc : BasicLightConductor) (name : String) : Option Bool :=
  (blc.basicLights name).map (fun basicLight => basicLight.isOn)

/-- The effect the specification gives to a tick on the cached flags: every light named in
`onRow` is on, every light named in `offRow` is off, the others are unchanged. -/
def specTick (onRow offRow : List String) (state : String → Option Bool) : String → Option Bool :=
  fun name =>
    if name ∈ onRow then (state name).map (fun _ => true)
    else if name ∈ offRow then (state name).map (fun _ => false)
    else state name

/-- The specification of a whole run: the ticks folded in increasing order over the initial
cached flags. -/
def specRun (schedule : BasicLightConductorSchedule) (state : String → Option Bool) :
    String → Option Bool :=
  (schedule.On.zip schedule.Off).foldl (fun st rows => specTick rows.1 rows.2 st) state

/-- What one tick may change: `blc'` differs from `blc` only by the state of lights that
stay registered under the same aliases and by further calls, all of them of tick `i`. -/
def TickFrame (i : Nat) (blc blc' : BasicLightConductor) : Prop :=
  blc'.schedule = blc.schedule ∧ blc'.ticks = blc.ticks ∧ blc'.selects = blc.selects ∧
    (∀ name, (blc'.basicLights name).isSome = (blc.basicLights name).isSome) ∧
    ∃ new : List Call, blc'.calls = blc.calls ++ new ∧ ∀ c ∈ new, c.tick = i

/-- What a goroutine returns over `row` when no hardware write fails: `nil` when every alias of
the row is registered, otherwise the error naming an alias of the row that is not, and `i`. -/
def ReturnsFor (blc : BasicLightConductor) (i : Nat) (row : List String) : Option Error → Prop
  | none => ∀ name ∈ row, (blc.basicLights name).isSome = true
  | some e => ∃ name ∈ row, blc.basicLights name = none ∧ e = .invalidAlias name i

/-- An environment in which every hardware write succeeds, the context is never done, and
the goroutines of each tick follow the given order. -/
def Env.quiet (order : Nat → List Bool) : Env :=
  { hwOk := fun _ => true, order := order, offErrFirst := fun _ => true,
    ready := fun _ => .tick, ctxErr := .canceled }

/-- A registry with one light, registered as `name` on `pin`, in the state `GetBasicLight`
returns on a new manager. -/
def oneLight (name : String) (pin : Int) : String → Option rpi.BasicLight :=
  fun n => if n = name then some { pin := pin, line := rpi.requestedAsOutput0, isOn := false }
    else none

end light

end LightShowPi

/-! ## Properties of `light/rpi` -/

namespace LightShowPi

namespace rpi

/-- `On` and `Off` keep the agreement between the cached flag and the line, whatever the
outcome of the hardware write. -/
theorem call_keeps_cacheAgrees (bl : BasicLight) (c : LightCall) (h : bl.cacheAgrees) :
    (bl.call c).cacheAgrees := by
  obtain ⟨pin, ⟨value, setCalls⟩, isOn⟩ := bl
  rcases c with hwOk | hwOk <;> cases isOn <;> cases hwOk <;>
    simp_all [BasicLight.call, BasicLight.On, BasicLight.Off, BasicLight.cacheAgrees,
      Line.SetValue]

/-- Any sequence of `On`/`Off` calls keeps the agreement between the cached flag and the
line, once it holds. -/
theorem calls_keep_cacheAgrees (cs : List LightCall) (bl : BasicLight) (h : bl.cacheAgrees) :
    (bl.calls cs).cacheAgrees := by
  induction cs generalizing bl with
  | nil => exact h
  | cons c cs ih => exact ih (bl.call c) (call_keeps_cacheAgrees bl c h)

/-- C2, evaluated on the code: the light `GetBasicLight` returns for a pin of a new manager
has its line driven to 0 (on) by the request while its cached flag says off, so the flag
does not agree with the last write; a first `Off` then returns `nil` without writing, and
the disagreement stays. -/
theorem getBasicLight_cache_disagrees (pin : Int) :
    (NewManager.GetBasicLight pin true).1
        = .ok { pin := pin, line := { value := 0, setCalls := 0 }, isOn := false } ∧
      ¬ BasicLight.cacheAgrees
          { pin := pin, line := { value := 0, setCalls := 0 }, isOn := false } ∧
      ∀ hwOk : Bool,
        BasicLight.Off { pin := pin, line := { value := 0, setCalls := 0 }, isOn := false } hwOk
          = (none, { pin := pin, line := { value := 0, setCalls := 0 }, isOn := false }) := by
  refine ⟨rfl, ?_, ?_⟩
  · simp [BasicLight.cacheAgrees]
  · intro hwOk; simp [BasicLight.Off]

/-- C7 as stated fails: on a light that is off, a first `On` whose hardware write fails leaves
the flag off, so a second `On` writes to the line again, and when that write succeeds the
state after two calls (on) differs from the state after one (off). -/
theorem second_on_writes_after_failed_on :
    (((BasicLight.On { pin := 4, line := { value := 1, setCalls := 0 }, isOn := false }
          false).2.On true).2.line.setCalls
        ≠ (BasicLight.On { pin := 4, line := { value := 1, setCalls := 0 }, isOn := false }
            false).2.line.setCalls) ∧
      (((BasicLight.On { pin := 4, line := { value := 1, setCalls := 0 }, isOn := false }
          false).2.On true).2.State
        ≠ (BasicLight.On { pin := 4, line := { value := 1, setCalls := 0 }, isOn := false }
            false).2.State) := by
  decide

/-- C7, amended: when a call of `On` returns `nil`, a second `On` right after it returns `nil`
and leaves the light exactly as the first call left it: the same `State`, and no further
`SetValue` on the line. The same holds for `Off`. -/
theorem second_call_is_noop (bl : BasicLight) (hw1 hw2 : Bool) :
    ((bl.On hw1).1 = none →
        (bl.On hw1).2.On hw2 = (none, (bl.On hw1).2) ∧
        ((bl.On hw1).2.On hw2).2.State = (bl.On hw1).2.State ∧
        ((bl.On hw1).2.On hw2).2.line.setCalls = (bl.On hw1).2.line.setCalls) ∧
      ((bl.Off hw1).1 = none →
        (bl.Off hw1).2.Off hw2 = (none, (bl.Off hw1).2) ∧
        ((bl.Off hw1).2.Off hw2).2.State = (bl.Off hw1).2.State ∧
        ((bl.Off hw1).2.Off hw2).2.line.setCalls = (bl.Off hw1).2.line.setCalls) := by
  obtain ⟨pin, ⟨value, setCalls⟩, isOn⟩ := bl
  cases isOn <;> cases hw1 <;> simp [BasicLight.On, BasicLight.Off, Line.SetValue]

/-- Witness of `second_call_is_noop`: a light that is off, turned on twice with working
hardware, is written once. -/
theorem second_call_is_noop_witness :
    (BasicLight.On { pin := 4, line := { value := 1, setCalls := 0 }, isOn := false } true).1
        = none ∧
      ((BasicLight.On { pin := 4, line := { value := 1, setCalls := 0 }, isOn := false }
          true).2.On true).2.line.setCalls = 1 := by
  have h := (second_call_is_noop
    { pin := 4, line := { value := 1, setCalls := 0 }, isOn := false } true true).1 (by decide)
  exact ⟨by decide, by rw [h.2.2]; decide⟩

/-- The ghost list of held pins and the map `lines` have the same pins, each once, in every
state reached from `NewManager`. -/
theorem after_held (cs : List ManagerCall) :
    (Manager.after cs).held.Nodup ∧
      ∀ pin, pin ∈ (Manager.after cs).held ↔ ((Manager.after cs).lines pin).isSome = true := by
  suffices h : ∀ m : Manager,
      (m.held.Nodup ∧ ∀ pin, pin ∈ m.held ↔ (m.lines pin).isSome = true) →
        (cs.foldl Manager.call m).held.Nodup ∧
          ∀ pin, pin ∈ (cs.foldl Manager.call m).held ↔
            ((cs.foldl Manager.call m).lines pin).isSome = true by
    exact h NewManager ⟨List.nodup_nil, fun pin => by simp [NewManager]⟩
  induction cs with
  | nil => intro m hm; exact hm
  | cons c cs ih =>
    intro m hm
    apply ih
    obtain ⟨hnd, hmem⟩ := hm
    cases c with
    | request pin chipOk =>
      cases hl : m.lines pin with
      | some l => simp only [Manager.call, Manager.requestLine, hl]; exact ⟨hnd, hmem⟩
      | none =>
        cases chipOk with
        | false => simp only [Manager.call, Manager.requestLine, hl]; exact ⟨hnd, hmem⟩
        | true =>
          have hnot : pin ∉ m.held := by
            intro hin; have := (hmem pin).1 hin; simp [hl] at this
          simp only [Manager.call, Manager.requestLine, hl, if_true]
          refine ⟨?_, ?_⟩
          · rw [List.nodup_append]
            refine ⟨hnd, List.nodup_singleton pin, ?_⟩
            intro a ha hb
            simp only [List.mem_singleton] at hb
            exact hnot (hb ▸ ha)
          · intro q
            by_cases hq : q = pin
            · subst hq; simp
            · simp [Function.update_noteq hq, hmem q, hq]
    | close pin closeOk =>
      cases hl : m.lines pin with
      | none =>
        simp only [Manager.call, Manager.closeLine, Manager.closeLineHelper, hl]
        exact ⟨hnd, hmem⟩
      | some l =>
        simp only [Manager.call, Manager.closeLine, Manager.closeLineHelper, hl]
        refine ⟨hnd.erase pin, ?_⟩
        intro q
        by_cases hq : q = pin
        · subst hq; simp [hnd.mem_erase_iff]
        · simp [Function.update_noteq hq, hnd.mem_erase_iff, hmem q, hq]

/-- C10: `requestLine(pin)`, and so `GetBasicLight(pin)`, fails with the error wrapping
`ErrLineAlreadyRequested`, leaving the manager unchanged, exactly when the pin is in the map
`lines`, and succeeds on a pin that is not when the chip grants the line; `closeLine(pin)` on a pin
that is not in the map fails with the error wrapping `ErrLineNotRequested` and leaves the
manager unchanged; on a pin that is in the map it removes that pin and no other, whatever
`line.Close()` returns, and the pin can then be requested again. In every state reached from
`NewManager`, each pin has at most one line obtained from the chip and not yet closed, and it
has one exactly when it is in the map. -/
theorem manager_one_line_per_pin (m : Manager) (pin : Int) (chipOk closeOk : Bool)
    (cs : List ManagerCall) :
    (((m.requestLine pin chipOk).1 = .error (.lineAlreadyRequested pin) ∧
          (m.requestLine pin chipOk).2.lines = m.lines ∧
          (m.requestLine pin chipOk).2.held = m.held) ↔ (m.lines pin).isSome = true) ∧
      (((m.GetBasicLight pin chipOk).1 = .error (.lineAlreadyRequested pin) ∧
          (m.GetBasicLight pin chipOk).2.lines = m.lines ∧
          (m.GetBasicLight pin chipOk).2.held = m.held) ↔ (m.lines pin).isSome = true) ∧
      ((m.lines pin).isSome = false →
        (m.requestLine pin true).1 = .ok requestedAsOutput0 ∧
        ((m.requestLine pin true).2.lines pin).isSome = true) ∧
      ((m.lines pin).isSome = false →
        (m.closeLine pin closeOk).1 = some (.lineNotRequested pin) ∧
        (m.closeLine pin closeOk).2.lines = m.lines ∧
        (m.closeLine pin closeOk).2.held = m.held) ∧
      ((m.lines pin).isSome = true →
        (m.closeLine pin closeOk).1 ≠ some (.lineNotRequested pin) ∧
        (m.closeLine pin closeOk).2.lines pin = none ∧
        (∀ q, q ≠ pin → (m.closeLine pin closeOk).2.lines q = m.lines q) ∧
        ((m.closeLine pin closeOk).2.requestLine pin true).1 = .ok requestedAsOutput0) ∧
      ((Manager.after cs).held.count pin ≤ 1 ∧
        ((Manager.after cs).held.count pin = 1 ↔
          ((Manager.after cs).lines pin).isSome = true)) := by
  refine ⟨?_, ?_, ?_, ?_, ?_, ?_⟩
  · cases hl : m.lines pin with
    | some l => simp [Manager.requestLine, hl]
    | none => cases chipOk <;> simp [Manager.requestLine, hl]
  · cases hl : m.lines pin with
    | some l => simp [Manager.GetBasicLight, Manager.requestLine, hl]
    | none => cases chipOk <;> simp [Manager.GetBasicLight, Manager.requestLine, hl]
  · intro h
    cases hl : m.lines pin with
    | some l => simp [hl] at h
    | none => simp [Manager.requestLine, hl]
  · intro h
    cases hl : m.lines pin with
    | some l => simp [hl] at h
    | none => simp [Manager.closeLine, Manager.closeLineHelper, hl]
  · intro h
    cases hl : m.lines pin with
    | none => simp [hl] at h
    | some l =>
      refine ⟨?_, ?_, ?_, ?_⟩
      · cases closeOk <;> simp [Manager.closeLine, Manager.closeLineHelper, hl]
      · simp [Manager.closeLine, Manager.closeLineHelper, hl]
      · intro q hq
        simp [Manager.closeLine, Manager.closeLineHelper, hl, Function.update_noteq hq]
      · simp [Manager.closeLine, Manager.closeLineHelper, hl, Manager.requestLine]
  · obtain ⟨hnd, hmem⟩ := after_held cs
    refine ⟨List.nodup_iff_count_le_one.1 hnd pin, ?_⟩
    rw [← hmem pin]
    constructor
    · intro h
      exact List.count_pos_iff.1 (by omega)
    · intro h
      exact List.count_eq_one_of_mem hnd h

/-- Witness of `manager_one_line_per_pin`: after pin 4 is requested, a second request fails,
closing it empties the map, and it can be requested again. -/
theorem manager_one_line_per_pin_witness :
    ((Manager.after [.request 4 true]).requestLine 4 true).1
        = .error (.lineAlreadyRequested 4) ∧
      (((Manager.after [.request 4 true]).closeLine 4 true).2.requestLine 4 true).1
        = .ok requestedAsOutput0 ∧
      (Manager.after [.request 4 true, .close 4 true, .request 4 true]).held.count 4 ≤ 1 := by
  have h := manager_one_line_per_pin (Manager.after [.request 4 true]) 4 true true
    [.request 4 true, .close 4 true, .request 4 true]
  have hin : ((Manager.after [.request 4 true]).lines 4).isSome = true := by decide
  exact ⟨(h.1.2 hin).1, (h.2.2.2.2.1 hin).2.2.2, h.2.2.2.2.2.1⟩

end rpi

end LightShowPi

/-! ## Properties of the schedule loader -/

namespace LightShowPi

namespace light

/-- A record of valid cells that fits in the header from column `columnNumber` on is
scanned to its end, each alias appended to the row of its cell. -/
theorem rangeRecord_valid (header : List String) (filePath : String) (lineNumber : Nat)
    (record : List String) :
    ∀ (columnNumber : Nat) (onRow offRow : List String),
      (∀ v ∈ record, v = "on" ∨ v = "off") →
      columnNumber + record.length ≤ header.length →
      rangeRecord header filePath lineNumber record columnNumber onRow offRow
        = .ok (onRow ++ aliasesWhere "on" (header.drop columnNumber) record,
            offRow ++ aliasesWhere "off" (header.drop columnNumber) record) := by
  induction record with
  | nil => intro c onRow offRow _ _; simp [rangeRecord, aliasesWhere]
  | cons v record ih =>
    intro c onRow offRow hv hlen
    simp only [List.length_cons] at hlen
    have hc : c < header.length := by omega
    have hdrop : header.drop c = header[c] :: header.drop (c + 1) := List.drop_eq_getElem_cons hc
    have hget : header[c]? = some header[c] := List.getElem?_eq_getElem hc
    have hrest : ∀ w ∈ record, w = "on" ∨ w = "off" := fun w hw => hv w (List.mem_cons_of_mem v hw)
    rcases hv v (List.mem_cons_self v record) with h | h
    · subst h
      have hne : ¬ ("on" = "off") := by decide
      simp only [rangeRecord, if_true, hget]
      rw [ih (c + 1) (onRow ++ [header[c]]) offRow hrest (by omega), hdrop]
      simp only [aliasesWhere, List.zip_cons_cons, List.filter_cons, decide_True, if_true,
        hne, decide_False, Bool.false_eq_true, if_false, List.map_cons, List.append_assoc,
        List.singleton_append]
    · subst h
      have hne : ¬ ("off" = "on") := by decide
      simp only [rangeRecord, if_true, hget, hne, if_false]
      rw [ih (c + 1) onRow (offRow ++ [header[c]]) hrest (by omega), hdrop]
      simp only [aliasesWhere, List.zip_cons_cons, List.filter_cons, decide_True, if_true,
        hne, decide_False, Bool.false_eq_true, if_false, List.map_cons, List.append_assoc,
        List.singleton_append]

/-- Valid cells followed by an invalid one: the scan stops at the invalid cell and reports
its value, the line, and the column counted from 1. -/
theorem rangeRecord_invalid (header : List String) (filePath : String) (lineNumber : Nat)
    (val : String) (rest : List String) (hval : val ≠ "on" ∧ val ≠ "off") (good : List String) :
    ∀ (columnNumber : Nat) (onRow offRow : List String),
      (∀ v ∈ good, v = "on" ∨ v = "off") →
      columnNumber + good.length ≤ header.length →
      rangeRecord header filePath lineNumber (good ++ val :: rest) columnNumber onRow offRow
        = .fail (.invalidSetting val lineNumber (columnNumber + good.length + 1) filePath) := by
  induction good with
  | nil => intro c onRow offRow _ _; simp [rangeRecord, hval.1, hval.2]
  | cons v good ih =>
    intro c onRow offRow hv hlen
    simp only [List.length_cons] at hlen
    have hc : c < header.length := by omega
    have hget : header[c]? = some header[c] := List.getElem?_eq_getElem hc
    have hrest : ∀ w ∈ good, w = "on" ∨ w = "off" := fun w hw => hv w (List.mem_cons_of_mem v hw)
    have hcol : c + 1 + good.length + 1 = c + (good.length + 1) + 1 := by omega
    rcases hv v (List.mem_cons_self v good) with h | h
    · subst h
      rw [List.cons_append]
      simp only [rangeRecord, if_true, hget, List.length_cons]
      rw [ih (c + 1) (onRow ++ [header[c]]) offRow hrest (by omega), hcol]
    · subst h
      have hne : ¬ ("off" = "on") := by decide
      rw [List.cons_append]
      simp only [rangeRecord, if_true, hget, hne, if_false, List.length_cons]
      rw [ih (c + 1) onRow (offRow ++ [header[c]]) hrest (by omega), hcol]

/-- Reading a run of valid records of the header's length appends one row per record to both
sequences of the schedule and moves the line counter past them. -/
theorem readRecords_valid (header : List String) (filePath : String)
    (reads : List (Option (List String))) (records : List (List String)) :
    ∀ (lineNumber : Nat) (schedule : BasicLightConductorSchedule),
      (∀ r ∈ records, r.length = header.length ∧ ∀ v ∈ r, v = "on" ∨ v = "off") →
      readRecords header filePath (records.map some ++ reads) lineNumber schedule
        = readRecords header filePath reads (lineNumber + records.length)
            { On := schedule.On ++ records.map (aliasesWhere "on" header),
              Off := schedule.Off ++ records.map (aliasesWhere "off" header) } := by
  induction records with
  | nil => intro ln schedule _; simp
  | cons r records ih =>
    intro ln schedule h
    have hr := h r (List.mem_cons_self r records)
    have hrs : ∀ r' ∈ records, r'.length = header.length ∧ ∀ v ∈ r', v = "on" ∨ v = "off" :=
      fun r' hr' => h r' (List.mem_cons_of_mem r hr')
    have hscan := rangeRecord_valid header filePath ln r 0 [] [] hr.2 (by omega)
    simp only [List.drop_zero, List.nil_append] at hscan
    rw [List.map_cons, List.cons_append]
    simp only [readRecords, hscan]
    rw [ih (ln + 1) _ hrs]
    simp only [List.length_cons, List.append_assoc, List.singleton_append]
    congr 1
    omega

/-- The on-row and the off-row of a record of valid cells of the header's length share out
the header. -/
theorem aliasesWhere_lengths (header record : List String)
    (hlen : record.length = header.length) (hv : ∀ v ∈ record, v = "on" ∨ v = "off") :
    (aliasesWhere "on" header record).length + (aliasesWhere "off" header record).length
      = header.length := by
  induction header generalizing record with
  | nil => simp [aliasesWhere]
  | cons a header ih =>
    cases record with
    | nil => simp at hlen
    | cons v record =>
      simp only [List.length_cons, Nat.add_right_cancel_iff] at hlen
      have hrest : ∀ w ∈ record, w = "on" ∨ w = "off" :=
        fun w hw => hv w (List.mem_cons_of_mem v hw)
      have ih' := ih record hlen hrest
      simp only [aliasesWhere, List.length_map] at ih' ⊢
      have hne : ¬ ("off" = "on") := by decide
      have hne' : ¬ ("on" = "off") := by decide
      rcases hv v (List.mem_cons_self v record) with h | h
      · subst h
        simp only [List.zip_cons_cons, List.filter_cons, decide_True, if_true, hne',
          decide_False, List.length_cons]
        simp only [Bool.false_eq_true, if_false]
        omega
      · subst h
        simp only [List.zip_cons_cons, List.filter_cons, decide_True, if_true, hne,
          decide_False, List.length_cons]
        simp only [Bool.false_eq_true, if_false]
        omega

/-- C4: for a header and data records of the header's length whose cells are all `on` or
`off`, the loader succeeds; the schedule has one entry per record in both sequences, `On[i]`
lists the header aliases of the columns whose cell in record `i` is `on` and `Off[i]` those
whose cell is `off`, in column order, and the two rows together have as many aliases as the
header. -/
theorem loader_partitions_records (filePath : String) (header : List String)
    (records : List (List String))
    (h : ∀ r ∈ records, r.length = header.length ∧ ∀ v ∈ r, v = "on" ∨ v = "off") :
    NewBasicLightConductorScheduleFromFile filePath (ScheduleFile.ofRecords header records)
        = .ok { On := records.map (aliasesWhere "on" header),
                Off := records.map (aliasesWhere "off" header) } ∧
      (records.map (aliasesWhere "on" header)).length = records.length ∧
      (records.map (aliasesWhere "off" header)).length = records.length ∧
      ∀ r ∈ records,
        (aliasesWhere "on" header r).length + (aliasesWhere "off" header r).length
          = header.length := by
  refine ⟨?_, List.length_map _ _, List.length_map _ _, ?_⟩
  · have hread := readRecords_valid header filePath [] records 2 { On := [], Off := [] } h
    simp only [List.append_nil, List.nil_append, readRecords] at hread
    simp [NewBasicLightConductorScheduleFromFile, ScheduleFile.ofRecords, hread]
  · intro r hr
    exact aliasesWhere_lengths header r (h r hr).1 (h r hr).2

/-- Witness of `loader_partitions_records`: header `a,b` with the records `on,off` and
`off,on` loads as `On = [[a],[b]]`, `Off = [[b],[a]]`. -/
theorem loader_partitions_records_witness :
    NewBasicLightConductorScheduleFromFile "schedule.csv"
        (ScheduleFile.ofRecords ["a", "b"] [["on", "off"], ["off", "on"]])
      = .ok { On := [["a"], ["b"]], Off := [["b"], ["a"]] } :=
  (loader_partitions_records "schedule.csv" ["a", "b"] [["on", "off"], ["off", "on"]]
    (by decide)).1.trans (by decide)

/-- C5 as stated fails: with the header `a` and the single record `maybe`, the offending cell
is in column 0 counted from 0, and the error reports column 1, not column 0. -/
theorem loader_reports_column_from_one :
    NewBasicLightConductorScheduleFromFile "schedule.csv"
        (ScheduleFile.ofRecords ["a"] [["maybe"]])
      = .fail (.invalidSetting "maybe" 2 1 "schedule.csv") ∧
    NewBasicLightConductorScheduleFromFile "schedule.csv"
        (ScheduleFile.ofRecords ["a"] [["maybe"]])
      ≠ .fail (.invalidSetting "maybe" 2 0 "schedule.csv") := by
  decide

/-- C5, amended: when the records have the header's length and the first cell in row-major
order that is neither `on` nor `off` is `val`, in record `r` and column `c` counted from 0,
the loader returns no schedule and the error naming `val`, the file path, the line `r + 2`
and the column counted from 1, `c + 1`. Here `before` are the `r` records before the
offending one and `good` the `c` cells before `val` in it. -/
theorem loader_rejects_first_invalid_cell (filePath : String) (header : List String)
    (before after : List (List String)) (good rest : List String) (val : String)
    (hlen : ∀ r ∈ before ++ (good ++ val :: rest) :: after, r.length = header.length)
    (hbefore : ∀ r ∈ before, ∀ v ∈ r, v = "on" ∨ v = "off")
    (hgood : ∀ v ∈ good, v = "on" ∨ v = "off")
    (hval : val ≠ "on" ∧ val ≠ "off") :
    NewBasicLightConductorScheduleFromFile filePath
        (ScheduleFile.ofRecords header (before ++ (good ++ val :: rest) :: after))
      = .fail (.invalidSetting val (before.length + 2) (good.length + 1) filePath) := by
  have hb : ∀ r ∈ before, r.length = header.length ∧ ∀ v ∈ r, v = "on" ∨ v = "off" :=
    fun r hr => ⟨hlen r (List.mem_append_left _ hr), hbefore r hr⟩
  have hrow : (good ++ val :: rest).length = header.length :=
    hlen _ (List.mem_append_right _ (List.mem_cons_self _ _))
  have hfit : 0 + good.length ≤ header.length := by
    rw [← hrow]; simp
  have hscan := rangeRecord_invalid header filePath (2 + before.length) val rest hval good 0
    [] [] hgood hfit
  have hread := readRecords_valid header filePath
    (some (good ++ val :: rest) :: after.map some) before 2 { On := [], Off := [] } hb
  simp only [NewBasicLightConductorScheduleFromFile, ScheduleFile.ofRecords, Bool.not_true,
    Bool.false_eq_true, if_false, List.map_append, List.map_cons, hread, readRecords, hscan]
  congr 2
  · omega
  · omega

/-- Witness of `loader_rejects_first_invalid_cell`: header `a,b`, records `on,off` and
`off,maybe`: the error names `maybe`, line 3 and column 2. -/
theorem loader_rejects_first_invalid_cell_witness :
    NewBasicLightConductorScheduleFromFile "schedule.csv"
        (ScheduleFile.ofRecords ["a", "b"] ([["on", "off"]] ++ (["off"] ++ "maybe" :: []) :: []))
      = .fail (.invalidSetting "maybe" 3 2 "schedule.csv") :=
  loader_rejects_first_invalid_cell "schedule.csv" ["a", "b"] [["on", "off"]] [] ["off"] []
    "maybe" (by decide) (by decide) (by decide) (by decide)

end light

end LightShowPi

/-! ## Properties of the conductor -/

namespace LightShowPi

namespace light

theorem TickFrame.refl (i : Nat) (blc : BasicLightConductor) : TickFrame i blc blc :=
  ⟨rfl, rfl, rfl, fun _ => rfl, [], by simp, by simp⟩

theorem TickFrame.trans {i : Nat} {a b c : BasicLightConductor} (hab : TickFrame i a b)
    (hbc : TickFrame i b c) : TickFrame i a c := by
  obtain ⟨h1, h2, h3, h4, n1, h5, h6⟩ := hab
  obtain ⟨k1, k2, k3, k4, n2, k5, k6⟩ := hbc
  refine ⟨k1.trans h1, k2.trans h2, k3.trans h3, fun name => (k4 name).trans (h4 name),
    n1 ++ n2, ?_, ?_⟩
  · rw [k5, h5, List.append_assoc]
  · intro c hc
    rcases List.mem_append.1 hc with h | h
    · exact h6 c h
    · exact k6 c h

/-- One iteration of a goroutine stays within the frame of its tick. -/
theorem visit_frame (env : Env) (i : Nat) (op : Op) (name : String)
    (blc : BasicLightConductor) : TickFrame i blc (visit env i op name blc).2 := by
  unfold visit
  cases hl : blc.basicLights name with
  | none => exact TickFrame.refl i blc
  | some basicLight =>
    refine ⟨rfl, rfl, rfl, ?_, [{ tick := i, name := name, op := op }], rfl, ?_⟩
    · intro n
      by_cases hn : n = name
      · subst hn; simp [hl]
      · simp [Function.update_noteq hn]
    · intro c hc
      simp only [List.mem_singleton] at hc
      rw [hc]

theorem rangeAlone_frame (env : Env) (i : Nat) (op : Op) (row : List String) :
    ∀ blc : BasicLightConductor, TickFrame i blc (rangeAlone env i op row blc).2 := by
  induction row with
  | nil => intro blc; exact TickFrame.refl i blc
  | cons name row ih =>
    intro blc
    have hv := visit_frame env i op name blc
    unfold rangeAlone
    cases hres : visit env i op name blc with
    | mk err blc' =>
      rw [hres] at hv
      cases err with
      | some e => exact hv
      | none => exact hv.trans (ih blc')

theorem finishOn_frame (env : Env) (i : Nat) (offErr : Option Error)
    (onRow : Option (List String)) (blc : BasicLightConductor) :
    TickFrame i blc (finishOn env i offErr onRow blc).2 := by
  cases onRow with
  | none => exact TickFrame.refl i blc
  | some row => exact rangeAlone_frame env i .on row blc

theorem finishOff_frame (env : Env) (i : Nat) (onErr : Option Error)
    (offRow : Option (List String)) (blc : BasicLightConductor) :
    TickFrame i blc (finishOff env i onErr offRow blc).2 := by
  cases offRow with
  | none => exact TickFrame.refl i blc
  | some row => exact rangeAlone_frame env i .off row blc

theorem interleave_frame (env : Env) (i : Nat) (order : List Bool) :
    ∀ (offRow onRow : Option (List String)) (blc : BasicLightConductor),
      TickFrame i blc (interleave env i order offRow onRow blc).2 := by
  induction order with
  | nil =>
    intro offRow onRow blc
    cases offRow with
    | none => exact TickFrame.refl i blc
    | some row =>
      simp only [interleave]
      exact (rangeAlone_frame env i .off row blc).trans (finishOn_frame env i _ onRow _)
  | cons b order ih =>
    intro offRow onRow blc
    cases b with
    | true =>
      cases offRow with
      | none => exact TickFrame.refl i blc
      | some row =>
        cases row with
        | nil => simp only [interleave]; exact finishOn_frame env i none onRow blc
        | cons name row =>
          have hv := visit_frame env i .off name blc
          simp only [interleave]
          cases hres : visit env i .off name blc with
          | mk err blc' =>
            rw [hres] at hv
            cases err with
            | some e => exact hv.trans (finishOn_frame env i _ onRow blc')
            | none => exact hv.trans (ih (some row) onRow blc')
    | false =>
      cases onRow with
      | none => simp only [interleave]; exact TickFrame.refl i blc
      | some row =>
        cases row with
        | nil => simp only [interleave]; exact finishOff_frame env i none offRow blc
        | cons name row =>
          have hv := visit_frame env i .on name blc
          simp only [interleave]
          cases hres : visit env i .on name blc with
          | mk err blc' =>
            rw [hres] at hv
            cases err with
            | some e => exact hv.trans (finishOff_frame env i _ offRow blc')
            | none => exact hv.trans (ih offRow (some row) blc')

/-- A call of `setStatesForSecondInterval(i)` logs tick `i` and otherwise stays within the
frame of the tick. -/
theorem setStates_frame (blc : BasicLightConductor) (env : Env) (i : Nat) :
    TickFrame i { blc with ticks := blc.ticks ++ [i] }
      (blc.setStatesForSecondInterval env i).2 := by
  have h := interleave_frame env i (env.order i) blc.schedule.Off[i]? blc.schedule.On[i]?
    { blc with ticks := blc.ticks ++ [i] }
  unfold BasicLightConductor.setStatesForSecondInterval
  cases hres : interleave env i (env.order i) blc.schedule.Off[i]? blc.schedule.On[i]?
      { blc with ticks := blc.ticks ++ [i] } with
  | mk tickEnd blc' =>
    rw [hres] at h
    cases tickEnd with
    | crashed => exact h
    | returned offErr onErr =>
      simp only
      cases wait (env.offErrFirst i) offErr onErr <;> exact h

/-- When both rows are out of range the goroutines crash before any call. -/
theorem interleave_out_of_range (env : Env) (i : Nat) (order : List Bool)
    (blc : BasicLightConductor) : interleave env i order none none blc = (.crashed, blc) := by
  cases order with
  | nil => rfl
  | cons b order => cases b <;> rfl

/-- C1, evaluated on the code: for the empty schedule and any registry, `Start` passes the
length check and calls `setStatesForSecondInterval(0)`, whose goroutines index `Off[0]` and
`On[0]` out of range: the run ends in a run-time panic instead of returning `nil`. No `On`
or `Off` is invoked. -/
theorem start_empty_schedule_crashes (basicLights : String → Option rpi.BasicLight)
    (env : Env) :
    ((NewBasicLightConductor basicLights { On := [], Off := [] }).Start env).1 = .crash ∧
      ((NewBasicLightConductor basicLights { On := [], Off := [] }).Start env).2.ticks = [0] ∧
      ((NewBasicLightConductor basicLights { On := [], Off := [] }).Start env).2.calls = [] := by
  simp [BasicLightConductor.Start, BasicLightConductor.setStatesForSecondInterval,
    NewBasicLightConductor, interleave_out_of_range]

/-- C3: when the two sequences of the schedule differ in length, `Start` returns the error
carrying the length of `On` and the length of `Off`, and nothing else happens: no call of
`setStatesForSecondInterval`, no `On` or `Off` on a light, no `select`. -/
theorem start_length_mismatch (blc : BasicLightConductor) (env : Env)
    (h : blc.schedule.On.length ≠ blc.schedule.Off.length) :
    (blc.Start env).1
        = .fail (.lengthMismatch blc.schedule.On.length blc.schedule.Off.length) ∧
      (blc.Start env).2.calls = blc.calls ∧
      (blc.Start env).2.ticks = blc.ticks ∧
      (blc.Start env).2.selects = blc.selects := by
  have h' : ¬ blc.schedule.Off.length = blc.schedule.On.length := fun e => h e.symm
  simp [BasicLightConductor.Start, h']

/-- Witness of `start_length_mismatch`: two `On` rows against one `Off` row. -/
theorem start_length_mismatch_witness :
    ((NewBasicLightConductor (oneLight "a" 4) { On := [["a"], []], Off := [[]] }).Start
        (Env.quiet fun _ => [])).1 = .fail (.lengthMismatch 2 1) ∧
      ((NewBasicLightConductor (oneLight "a" 4) { On := [["a"], []], Off := [[]] }).Start
        (Env.quiet fun _ => [])).2.calls = [] := by
  have h := start_length_mismatch
    (NewBasicLightConductor (oneLight "a" 4) { On := [["a"], []], Off := [[]] })
    (Env.quiet fun _ => []) (by decide)
  exact ⟨h.1, h.2.1⟩

end light

end LightShowPi

namespace LightShowPi

namespace light

/-- The ghost logs of a tick: tick `i` is logged, the selects are untouched. -/
theorem setStates_logs (blc : BasicLightConductor) (env : Env) (i : Nat) :
    (blc.setStatesForSecondInterval env i).2.ticks = blc.ticks ++ [i] ∧
      (blc.setStatesForSecondInterval env i).2.selects = blc.selects := by
  obtain ⟨_, h2, h3, _⟩ := setStates_frame blc env i
  exact ⟨h2, h3⟩

/-- What the loop of `Start` logs from index `i` on: a tick is applied only at an index whose
`select` ran the ticker case, and once a `select` runs the `ctx.Done()` case the loop returns
`ctx.Err()`. -/
theorem tickLoop_logs (env : Env) (n : Nat) :
    ∀ (i : Nat) (blc : BasicLightConductor),
      (∀ j ∈ (BasicLightConductor.tickLoop env n i blc).2.ticks,
        j ∈ blc.ticks ∨ (i ≤ j ∧ (env.ready j).takesDone = false)) ∧
      (∀ j ∈ (BasicLightConductor.tickLoop env n i blc).2.selects,
        j ∈ blc.selects ∨ (i ≤ j ∧ ((env.ready j).takesDone = true →
          (BasicLightConductor.tickLoop env n i blc).1 = .fail (.context env.ctxErr)))) := by
  induction n with
  | zero =>
    intro i blc
    exact ⟨fun j hj => Or.inl hj, fun j hj => Or.inl hj⟩
  | succ n ih =>
    intro i blc
    unfold BasicLightConductor.tickLoop
    by_cases hd : (env.ready i).takesDone = true
    · simp only [hd, if_true]
      refine ⟨fun j hj => Or.inl hj, fun j hj => ?_⟩
      rcases List.mem_append.1 hj with h | h
      · exact Or.inl h
      · simp only [List.mem_singleton] at h
        subst h
        exact Or.inr ⟨le_refl _, fun _ => trivial⟩
    · simp only [hd, if_false]
      have hfalse : (env.ready i).takesDone = false := by simpa using hd
      obtain ⟨ht, hs⟩ := setStates_logs { blc with selects := blc.selects ++ [i] } env i
      have hticks : ∀ blc' : BasicLightConductor, blc'.ticks = blc.ticks ++ [i] →
          ∀ j ∈ blc'.ticks, j ∈ blc.ticks ∨ (i ≤ j ∧ (env.ready j).takesDone = false) := by
        intro blc' hb j hj
        rw [hb] at hj
        rcases List.mem_append.1 hj with h | h
        · exact Or.inl h
        · simp only [List.mem_singleton] at h
          subst h
          exact Or.inr ⟨le_refl _, hfalse⟩
      have hsel : ∀ (blc' : BasicLightConductor) (r : Result Unit),
          blc'.selects = blc.selects ++ [i] →
          ∀ j ∈ blc'.selects, j ∈ blc.selects ∨ (i ≤ j ∧ ((env.ready j).takesDone = true →
            r = .fail (.context env.ctxErr))) := by
        intro blc' r hb j hj
        rw [hb] at hj
        rcases List.mem_append.1 hj with h | h
        · exact Or.inl h
        · simp only [List.mem_singleton] at h
          subst h
          exact Or.inr ⟨le_refl _, fun hc => absurd hc hd⟩
      cases hres : BasicLightConductor.setStatesForSecondInterval
          { blc with selects := blc.selects ++ [i] } env i with
      | mk r blc' =>
        rw [hres] at ht hs
        simp only at ht hs
        cases r with
        | fail e => exact ⟨hticks blc' ht, hsel blc' _ hs⟩
        | crash => exact ⟨hticks blc' ht, hsel blc' _ hs⟩
        | ok u =>
          simp only
          obtain ⟨iht, ihs⟩ := ih (i + 1) blc'
          refine ⟨fun j hj => ?_, fun j hj => ?_⟩
          · rcases iht j hj with h | ⟨h1, h2⟩
            · exact hticks blc' ht j h
            · exact Or.inr ⟨by omega, h2⟩
          · rcases ihs j hj with h | ⟨h1, h2⟩
            · rcases hsel blc' (.ok u) hs j h with h' | ⟨h1, _⟩
              · exact Or.inl h'
              · rw [hs] at h
                rcases List.mem_append.1 h with h'' | h''
                · exact Or.inl h''
                · simp only [List.mem_singleton] at h''
                  subst h''
                  exact Or.inr ⟨le_refl _, fun hc => absurd hc hd⟩
            · exact Or.inr ⟨by omega, h2⟩

/-- C8 as stated fails, in two ways. With the context done from before the call and at every
`select`, `Start` still applies tick 0: it does not consult the context before the first
tick. And when the context is done and the ticker has fired as well, the `select` of index 1
may run the ticker case, and tick 1 is applied although the context is done. -/
theorem start_applies_ticks_with_context_done :
    (((NewBasicLightConductor (oneLight "a" 4) { On := [["a"]], Off := [[]] }).Start
          { Env.quiet (fun _ => []) with ready := fun _ => .done }).1 = .ok () ∧
      ((NewBasicLightConductor (oneLight "a" 4) { On := [["a"]], Off := [[]] }).Start
          { Env.quiet (fun _ => []) with ready := fun _ => .done }).2.ticks = [0] ∧
      ((NewBasicLightConductor (oneLight "a" 4) { On := [["a"]], Off := [[]] }).Start
          { Env.quiet (fun _ => []) with ready := fun _ => .done }).2.calls
        = [{ tick := 0, name := "a", op := .on }]) ∧
    ((SelectReady.both false).ctxDone = true ∧
      ((NewBasicLightConductor (oneLight "a" 4) { On := [[], ["a"]], Off := [[], []] }).Start
          { Env.quiet (fun _ => []) with ready := fun _ => .both false }).1 = .ok () ∧
      ((NewBasicLightConductor (oneLight "a" 4) { On := [[], ["a"]], Off := [[], []] }).Start
          { Env.quiet (fun _ => []) with ready := fun _ => .both false }).2.ticks = [0, 1] ∧
      ((NewBasicLightConductor (oneLight "a" 4) { On := [[], ["a"]], Off := [[], []] }).Start
          { Env.quiet (fun _ => []) with ready := fun _ => .both false }).2.calls
        = [{ tick := 1, name := "a", op := .on }]) := by
  decide

/-- C8, amended: for every tick index `i` from 1 on, if at the `select` of loop index `i` the
context is done and the ticker has not fired, then `setStatesForSecondInterval(i)` is not
called, and a run of `Start` that reaches that `select` returns `ctx.Err()`. (Tick 0 is
applied without consulting the context, and a `select` that finds both channels ready may
run either case.) -/
theorem start_honours_cancellation (basicLights : String → Option rpi.BasicLight)
    (schedule : BasicLightConductorSchedule) (env : Env) (i : Nat) (hi : 1 ≤ i)
    (hdone : (env.ready i).ctxDone = true) (htimer : (env.ready i).timerReady = false) :
    i ∉ ((NewBasicLightConductor basicLights schedule).Start env).2.ticks ∧
      (i ∈ ((NewBasicLightConductor basicLights schedule).Start env).2.selects →
        ((NewBasicLightConductor basicLights schedule).Start env).1
          = .fail (.context env.ctxErr)) := by
  have htakes : (env.ready i).takesDone = true := by
    cases hr : env.ready i <;> simp [hr, SelectReady.ctxDone, SelectReady.timerReady,
      SelectReady.takesDone] at hdone htimer ⊢
  unfold BasicLightConductor.Start
  simp only
  split
  · simp [NewBasicLightConductor]
  · obtain ⟨ht, hs⟩ := setStates_logs (NewBasicLightConductor basicLights schedule) env 0
    have ht0 : (NewBasicLightConductor basicLights schedule).ticks = [] := rfl
    have hs0 : (NewBasicLightConductor basicLights schedule).selects = [] := rfl
    rw [ht0] at ht
    rw [hs0] at hs
    cases hres : (NewBasicLightConductor basicLights schedule).setStatesForSecondInterval
        env 0 with
    | mk r blc' =>
      rw [hres] at ht hs
      simp only at ht hs
      have hnot : i ∉ blc'.ticks := by
        rw [ht]; simp only [List.nil_append, List.mem_singleton]; omega
      cases r with
      | fail e => exact ⟨hnot, fun h => by rw [hs] at h; simp at h⟩
      | crash => exact ⟨hnot, fun h => by rw [hs] at h; simp at h⟩
      | ok u =>
        simp only
        obtain ⟨lt, ls⟩ := tickLoop_logs env
          ((NewBasicLightConductor basicLights schedule).schedule.Off.length - 1) 1 blc'
        refine ⟨fun hin => ?_, fun hin => ?_⟩
        · rcases lt i hin with h | ⟨_, h⟩
          · exact hnot h
          · rw [htakes] at h; exact Bool.noConfusion h
        · rcases ls i hin with h | ⟨_, h⟩
          · rw [hs] at h; simp at h
          · exact h htakes

/-- Witness of `start_honours_cancellation`: the context is cancelled during the wait for
tick 1 of a two-tick schedule; tick 0 was applied, tick 1 is not, the run returns the
cancellation. -/
theorem start_honours_cancellation_witness :
    1 ∈ ((NewBasicLightConductor (oneLight "a" 4) { On := [["a"], []], Off := [[], ["a"]] }).Start
          { Env.quiet (fun _ => []) with ready := fun _ => .done }).2.selects ∧
      1 ∉ ((NewBasicLightConductor (oneLight "a" 4)
          { On := [["a"], []], Off := [[], ["a"]] }).Start
          { Env.quiet (fun _ => []) with ready := fun _ => .done }).2.ticks ∧
      ((NewBasicLightConductor (oneLight "a" 4) { On := [["a"], []], Off := [[], ["a"]] }).Start
          { Env.quiet (fun _ => []) with ready := fun _ => .done }).1
        = .fail (.context .canceled) := by
  have h := start_honours_cancellation (oneLight "a" 4)
    { On := [["a"], []], Off := [[], ["a"]] }
    { Env.quiet (fun _ => []) with ready := fun _ => .done } 1 (le_refl 1) rfl rfl
  have hin : 1 ∈ ((NewBasicLightConductor (oneLight "a" 4)
      { On := [["a"], []], Off := [[], ["a"]] }).Start
      { Env.quiet (fun _ => []) with ready := fun _ => .done }).2.selects := by decide
  exact ⟨hin, h.1, h.2 hin⟩

end light

end LightShowPi

namespace LightShowPi

namespace light

/-- With working hardware the device method returns `nil` and sets the cached flag. -/
theorem apply_hwOk (op : Op) (basicLight : rpi.BasicLight) :
    (op.apply basicLight true).1 = none ∧
      (op.apply basicLight true).2.isOn = decide (op = Op.on) := by
  obtain ⟨pin, line, isOn⟩ := basicLight
  cases op <;> cases isOn <;>
    simp [Op.apply, rpi.BasicLight.On, rpi.BasicLight.Off, rpi.Line.SetValue]

/-- With working hardware, visiting a registered alias lets the goroutine go on. -/
theorem visit_registered (env : Env) (hhw : ∀ n, env.hwOk n = true) (i : Nat) (op : Op)
    (name : String) (blc : BasicLightConductor)
    (hreg : (blc.basicLights name).isSome = true) :
    (visit env i op name blc).1 = none ∧
      (visit env i op name blc).2.state
        = fun n => if n = name then some (decide (op = Op.on)) else blc.state n := by
  cases hl : blc.basicLights name with
  | none => simp [hl] at hreg
  | some basicLight =>
    obtain ⟨h1, h2⟩ := apply_hwOk op basicLight
    unfold visit
    simp only [hl, hhw]
    refine ⟨by simp [h1], ?_⟩
    funext n
    by_cases hn : n = name
    · subst hn; simp [BasicLightConductor.state, h2]
    · simp [BasicLightConductor.state, Function.update_noteq hn, hn]

/-- Visiting an alias that is not registered makes the goroutine return the error naming the
alias and the tick, with nothing changed. -/
theorem visit_absent (env : Env) (i : Nat) (op : Op) (name : String)
    (blc : BasicLightConductor) (habs : blc.basicLights name = none) :
    visit env i op name blc = (some (.invalidAlias name i), blc) := by
  simp [visit, habs]

/-- What a goroutine may return depends on the registry only through its aliases. -/
theorem ReturnsFor.transfer {blc blc' : BasicLightConductor} {i : Nat} {row : List String}
    {err : Option Error}
    (hsame : ∀ name, (blc'.basicLights name).isSome = (blc.basicLights name).isSome)
    (h : ReturnsFor blc' i row err) : ReturnsFor blc i row err := by
  cases err with
  | none =>
    intro name hname
    rw [← hsame name]
    exact h name hname
  | some e =>
    obtain ⟨name, hname, habs, he⟩ := h
    refine ⟨name, hname, ?_, he⟩
    have := hsame name
    rw [habs] at this
    cases hl : blc.basicLights name with
    | none => rfl
    | some l => rw [hl] at this; simp at this

theorem rangeAlone_returns (env : Env) (hhw : ∀ n, env.hwOk n = true) (i : Nat) (op : Op)
    (row : List String) :
    ∀ blc : BasicLightConductor, ReturnsFor blc i row (rangeAlone env i op row blc).1 := by
  induction row with
  | nil => intro blc name hname; simp at hname
  | cons name row ih =>
    intro blc
    unfold rangeAlone
    cases hl : (blc.basicLights name).isSome with
    | false =>
      have habs : blc.basicLights name = none := by simpa using hl
      rw [visit_absent env i op name blc habs]
      exact ⟨name, List.mem_cons_self _ _, habs, rfl⟩
    | true =>
      have hv := (visit_registered env hhw i op name blc hl).1
      have hf := visit_frame env i op name blc
      cases hres : visit env i op name blc with
      | mk err blc' =>
        rw [hres] at hv hf
        simp only at hv
        subst hv
        simp only
        have hrest := ReturnsFor.transfer hf.2.2.2.1 (ih blc')
        cases herr : (rangeAlone env i op row blc').1 with
        | none =>
          rw [herr] at hrest
          intro n hn
          rcases List.mem_cons.1 hn with h | h
          · rw [h]; exact hl
          · exact hrest n h
        | some e =>
          rw [herr] at hrest
          obtain ⟨n, hn, habs, he⟩ := hrest
          exact ⟨n, List.mem_cons_of_mem _ hn, habs, he⟩

/-- With working hardware, whatever the interleaving, both goroutines of a tick whose rows
are in range return, each with the result its own row determines. -/
theorem interleave_returns (env : Env) (hhw : ∀ n, env.hwOk n = true) (i : Nat)
    (order : List Bool) :
    ∀ (offRow onRow : List String) (blc : BasicLightConductor),
      ∃ offErr onErr,
        (interleave env i order (some offRow) (some onRow) blc).1 = .returned offErr onErr ∧
        ReturnsFor blc i offRow offErr ∧ ReturnsFor blc i onRow onErr := by
  have honAlone : ∀ (offErr : Option Error) (onRow : List String) (blc : BasicLightConductor),
      ∃ onErr, (finishOn env i offErr (some onRow) blc).1 = .returned offErr onErr ∧
        ReturnsFor blc i onRow onErr :=
    fun offErr onRow blc => ⟨_, rfl, rangeAlone_returns env hhw i .on onRow blc⟩
  have hoffAlone : ∀ (onErr : Option Error) (offRow : List String) (blc : BasicLightConductor),
      ∃ offErr, (finishOff env i onErr (some offRow) blc).1 = .returned offErr onErr ∧
        ReturnsFor blc i offRow offErr :=
    fun onErr offRow blc => ⟨_, rfl, rangeAlone_returns env hhw i .off offRow blc⟩
  induction order with
  | nil =>
    intro offRow onRow blc
    simp only [interleave]
    obtain ⟨onErr, h1, h2⟩ := honAlone (rangeAlone env i .off offRow blc).1 onRow
      (rangeAlone env i .off offRow blc).2
    exact ⟨_, onErr, h1, rangeAlone_returns env hhw i .off offRow blc,
      ReturnsFor.transfer (rangeAlone_frame env i .off offRow blc).2.2.2.1 h2⟩
  | cons b order ih =>
    intro offRow onRow blc
    cases b with
    | true =>
      cases offRow with
      | nil =>
        simp only [interleave]
        obtain ⟨onErr, h1, h2⟩ := honAlone none onRow blc
        exact ⟨none, onErr, h1, fun n hn => by simp at hn, h2⟩
      | cons name offRow =>
        simp only [interleave]
        cases hl : (blc.basicLights name).isSome with
        | false =>
          have habs : blc.basicLights name = none := by simpa using hl
          rw [visit_absent env i .off name blc habs]
          simp only
          obtain ⟨onErr, h1, h2⟩ := honAlone (some (.invalidAlias name i)) onRow blc
          exact ⟨_, onErr, h1, ⟨name, List.mem_cons_self _ _, habs, rfl⟩, h2⟩
        | true =>
          have hv := (visit_registered env hhw i .off name blc hl).1
          have hf := visit_frame env i .off name blc
          cases hres : visit env i .off name blc with
          | mk err blc' =>
            rw [hres] at hv hf
            simp only at hv
            subst hv
            simp only
            obtain ⟨offErr, onErr, h1, h2, h3⟩ := ih offRow onRow blc'
            refine ⟨offErr, onErr, h1, ?_, ReturnsFor.transfer hf.2.2.2.1 h3⟩
            have h2' := ReturnsFor.transfer hf.2.2.2.1 h2
            cases offErr with
            | none =>
              intro n hn
              rcases List.mem_cons.1 hn with h | h
              · rw [h]; exact hl
              · exact h2' n h
            | some e =>
              obtain ⟨n, hn, habs, he⟩ := h2'
              exact ⟨n, List.mem_cons_of_mem _ hn, habs, he⟩
    | false =>
      cases onRow with
      | nil =>
        simp only [interleave]
        obtain ⟨offErr, h1, h2⟩ := hoffAlone none offRow blc
        exact ⟨offErr, none, h1, h2, fun n hn => by simp at hn⟩
      | cons name onRow =>
        simp only [interleave]
        cases hl : (blc.basicLights name).isSome with
        | false =>
          have habs : blc.basicLights name = none := by simpa using hl
          rw [visit_absent env i .on name blc habs]
          simp only
          obtain ⟨offErr, h1, h2⟩ := hoffAlone (some (.invalidAlias name i)) offRow blc
          exact ⟨offErr, _, h1, h2, ⟨name, List.mem_cons_self _ _, habs, rfl⟩⟩
        | true =>
          have hv := (visit_registered env hhw i .on name blc hl).1
          have hf := visit_frame env i .on name blc
          cases hres : visit env i .on name blc with
          | mk err blc' =>
            rw [hres] at hv hf
            simp only at hv
            subst hv
            simp only
            obtain ⟨offErr, onErr, h1, h2, h3⟩ := ih offRow onRow blc'
            refine ⟨offErr, onErr, h1, ReturnsFor.transfer hf.2.2.2.1 h2, ?_⟩
            have h3' := ReturnsFor.transfer hf.2.2.2.1 h3
            cases onErr with
            | none =>
              intro n hn
              rcases List.mem_cons.1 hn with h | h
              · rw [h]; exact hl
              · exact h3' n h
            | some e =>
              obtain ⟨n, hn, habs, he⟩ := h3'
              exact ⟨n, List.mem_cons_of_mem _ hn, habs, he⟩

/-- With working hardware, a tick whose rows are in range returns `nil` when all its aliases
are registered, and otherwise the error naming one of its aliases that is not, and the tick. -/
theorem setStates_hwOk (blc : BasicLightConductor) (env : Env)
    (hhw : ∀ n, env.hwOk n = true) (i : Nat) (offRow onRow : List String)
    (hoff : blc.schedule.Off[i]? = some offRow) (hon : blc.schedule.On[i]? = some onRow) :
    ((∀ name, name ∈ onRow ∨ name ∈ offRow → (blc.basicLights name).isSome = true) ∧
        (blc.setStatesForSecondInterval env i).1 = .ok ()) ∨
      ∃ name, (name ∈ onRow ∨ name ∈ offRow) ∧ blc.basicLights name = none ∧
        (blc.setStatesForSecondInterval env i).1 = .fail (.invalidAlias name i) := by
  obtain ⟨offErr, onErr, h1, h2, h3⟩ := interleave_returns env hhw i (env.order i) offRow onRow
    { blc with ticks := blc.ticks ++ [i] }
  unfold BasicLightConductor.setStatesForSecondInterval
  rw [hoff, hon]
  cases hres : interleave env i (env.order i) (some offRow) (some onRow)
      { blc with ticks := blc.ticks ++ [i] } with
  | mk tickEnd blc' =>
    rw [hres] at h1
    simp only at h1
    subst h1
    simp only
    cases offErr with
    | none =>
      cases onErr with
      | none =>
        left
        refine ⟨?_, by simp [wait]⟩
        rintro name (h | h)
        · exact h3 name h
        · exact h2 name h
      | some e =>
        right
        obtain ⟨name, hname, habs, he⟩ := h3
        exact ⟨name, Or.inl hname, habs, by simp [wait, he]⟩
    | some e =>
      right
      cases onErr with
      | none =>
        obtain ⟨name, hname, habs, he⟩ := h2
        exact ⟨name, Or.inr hname, habs, by simp [wait, he]⟩
      | some e' =>
        obtain ⟨name, hname, habs, he⟩ := h2
        obtain ⟨name', hname', habs', he'⟩ := h3
        cases hfirst : env.offErrFirst i with
        | true => exact ⟨name, Or.inr hname, habs, by simp [wait, he, hfirst]⟩
        | false => exact ⟨name', Or.inl hname', habs', by simp [wait, he', hfirst]⟩

end light

end LightShowPi

namespace LightShowPi

namespace light

/-- The loop of `Start`, started at index `i`, on a schedule whose ticks before `k` name
registered aliases only and whose tick `k` names one that is not, with working hardware and
the context never done up to `k`: the loop fails at tick `k` and goes no further. -/
theorem tickLoop_fails_fast (env : Env) (hhw : ∀ n, env.hwOk n = true)
    (schedule : BasicLightConductorSchedule) (registered : String → Bool) (k : Nat)
    (hlen : schedule.On.length = schedule.Off.length) (hk : k < schedule.Off.length)
    (hprev : ∀ j, j < k → ∀ name,
      name ∈ schedule.On[j]?.getD [] ∨ name ∈ schedule.Off[j]?.getD [] →
        registered name = true)
    (hctx : ∀ j, j ≤ k → (env.ready j).takesDone = false) (n : Nat) :
    ∀ (i : Nat) (blc : BasicLightConductor), blc.schedule = schedule →
      (∀ name, (blc.basicLights name).isSome = registered name) → i ≤ k → k < i + n →
      (∃ name, (name ∈ schedule.On[k]?.getD [] ∨ name ∈ schedule.Off[k]?.getD []) ∧
        registered name = false) →
      ∃ name, (name ∈ schedule.On[k]?.getD [] ∨ name ∈ schedule.Off[k]?.getD []) ∧
        registered name = false ∧
        (BasicLightConductor.tickLoop env n i blc).1 = .fail (.invalidAlias name k) ∧
        (BasicLightConductor.tickLoop env n i blc).2.ticks
          = blc.ticks ++ List.range' i (k + 1 - i) ∧
        ∃ new : List Call, (BasicLightConductor.tickLoop env n i blc).2.calls = blc.calls ++ new ∧
          ∀ c ∈ new, c.tick ≤ k := by
  induction n with
  | zero => intro i blc _ _ hik hkn _; omega
  | succ n ih =>
    intro i blc hsched hreg hik hkn habs
    have hi : i < schedule.Off.length := by omega
    have hi' : i < schedule.On.length := by omega
    have hoff : blc.schedule.Off[i]? = some schedule.Off[i] := by
      rw [hsched]; exact List.getElem?_eq_getElem hi
    have hon : blc.schedule.On[i]? = some schedule.On[i] := by
      rw [hsched]; exact List.getElem?_eq_getElem hi'
    have hoffD : schedule.Off[i]?.getD [] = schedule.Off[i] := by
      rw [List.getElem?_eq_getElem hi]; rfl
    have honD : schedule.On[i]?.getD [] = schedule.On[i] := by
      rw [List.getElem?_eq_getElem hi']; rfl
    have hstep := setStates_hwOk { blc with selects := blc.selects ++ [i] } env hhw i
      schedule.Off[i] schedule.On[i] hoff hon
    obtain ⟨f1, f2, _, f4, new, f5, f6⟩ :=
      setStates_frame { blc with selects := blc.selects ++ [i] } env i
    unfold BasicLightConductor.tickLoop
    simp only [hctx i hik, Bool.false_eq_true, if_false]
    cases hres : BasicLightConductor.setStatesForSecondInterval
        { blc with selects := blc.selects ++ [i] } env i with
    | mk r blc' =>
      rw [hres] at hstep f1 f2 f4 f5
      simp only at hstep f1 f2 f4 f5
      rcases hstep with ⟨hall, hr⟩ | ⟨name, hname, hnone, hr⟩
      · -- every alias of tick `i` is registered, so `i` is before `k`
        subst hr
        simp only
        have hlt : i < k := by
          rcases Nat.lt_or_ge i k with h | h
          · exact h
          · exfalso
            have hik' : i = k := by omega
            subst hik'
            obtain ⟨name, hname, hno⟩ := habs
            rw [honD, hoffD] at hname
            have := hall name hname
            rw [hreg name, hno] at this
            exact Bool.noConfusion this
        obtain ⟨name, hname, hno, hfail, hticks, new', hcalls, hnew'⟩ :=
          ih (i + 1) blc' (f1.trans hsched) (fun nm => (f4 nm).trans (hreg nm)) (by omega)
            (by omega) habs
        refine ⟨name, hname, hno, hfail, ?_, new ++ new', ?_, ?_⟩
        · rw [hticks, f2]
          have hcount : k + 1 - i = (k + 1 - (i + 1)) + 1 := by omega
          rw [hcount, List.range'_succ]
          simp
        · rw [hcalls, f5, List.append_assoc]
        · intro c hc
          rcases List.mem_append.1 hc with h | h
          · rw [f6 c h]; exact hik
          · exact hnew' c h
      · -- an alias of tick `i` is missing, so `i` is `k`
        subst hr
        simp only
        have hno : registered name = false := by
          have := hreg name
          simp only [hnone] at this
          exact this.symm
        have hik' : i = k := by
          rcases Nat.lt_or_ge i k with h | h
          · exfalso
            have := hprev i h name (by rw [honD, hoffD]; exact hname)
            rw [hno] at this
            exact Bool.noConfusion this
          · omega
        subst hik'
        refine ⟨name, by rw [honD, hoffD]; exact hname, hno, rfl, ?_, new, f5, ?_⟩
        · rw [f2]; simp
        · intro c hc
          rw [f6 c hc]

/-- C6 as stated fails: the tick with the missing alias may also hold a device failure, and
then the error of the run can be the device error. Here the light `a` is on, tick 0 turns
off `a` and then the unregistered `ghost`, and the hardware write for `a` fails: `Start`
returns the error of `a`, which names neither `ghost` nor the tick. -/
theorem start_reports_device_error_first :
    (BasicLightConductor.Start
        { basicLights := fun n =>
            if n = "a" then some { pin := 4, line := { value := 0, setCalls := 1 }, isOn := true }
            else none,
          schedule := { On := [[]], Off := [["a", "ghost"]] },
          calls := [], ticks := [], selects := [] }
        { Env.quiet (fun _ => []) with hwOk := fun _ => false }).1
      = .fail (.turnOffFailed "a" (.setHighFailed 4)) ∧
    (BasicLightConductor.Start
        { basicLights := fun n =>
            if n = "a" then some { pin := 4, line := { value := 0, setCalls := 1 }, isOn := true }
            else none,
          schedule := { On := [[]], Off := [["a", "ghost"]] },
          calls := [], ticks := [], selects := [] }
        { Env.quiet (fun _ => []) with hwOk := fun _ => false }).1
      ≠ .fail (.invalidAlias "ghost" 0) := by
  decide

/-- C6, amended: for a schedule with `len(On) == len(Off) == N` and `k < N`, when the ticks
before `k` name registered aliases only, tick `k` names an alias that is not registered, no
hardware write fails and the context is not done up to tick `k`, then whatever the
interleaving of the goroutines, `Start` returns the error naming an unregistered alias of
tick `k` and the index `k`; exactly the ticks `0..k` were started, and every `On`/`Off`
invoked belongs to one of them. -/
theorem start_fails_fast (blc : BasicLightConductor) (env : Env) (k : Nat)
    (hlen : blc.schedule.On.length = blc.schedule.Off.length)
    (hk : k < blc.schedule.Off.length)
    (hprev : ∀ j, j < k → ∀ name,
      name ∈ blc.schedule.On[j]?.getD [] ∨ name ∈ blc.schedule.Off[j]?.getD [] →
        (blc.basicLights name).isSome = true)
    (habs : ∃ name, (name ∈ blc.schedule.On[k]?.getD [] ∨ name ∈ blc.schedule.Off[k]?.getD []) ∧
      blc.basicLights name = none)
    (hhw : ∀ n, env.hwOk n = true)
    (hctx : ∀ j, j ≤ k → (env.ready j).ctxDone = false) :
    ∃ name, (name ∈ blc.schedule.On[k]?.getD [] ∨ name ∈ blc.schedule.Off[k]?.getD []) ∧
      blc.basicLights name = none ∧
      (blc.Start env).1 = .fail (.invalidAlias name k) ∧
      (blc.Start env).2.ticks = blc.ticks ++ List.range (k + 1) ∧
      ∃ new : List Call, (blc.Start env).2.calls = blc.calls ++ new ∧
        ∀ c ∈ new, c.tick ≤ k := by
  have htake : ∀ j, j ≤ k → (env.ready j).takesDone = false := by
    intro j hj
    have := hctx j hj
    cases hr : env.ready j <;> simp [hr, SelectReady.ctxDone, SelectReady.takesDone] at this ⊢
  have hnone : ∀ name, blc.basicLights name = none ↔ (blc.basicLights name).isSome = false := by
    intro name; cases blc.basicLights name <;> simp
  have h0 : 0 < blc.schedule.Off.length := by omega
  have h0' : 0 < blc.schedule.On.length := by omega
  have hoff : blc.schedule.Off[0]? = some blc.schedule.Off[0] := List.getElem?_eq_getElem h0
  have hon : blc.schedule.On[0]? = some blc.schedule.On[0] := List.getElem?_eq_getElem h0'
  have hoffD : blc.schedule.Off[0]?.getD [] = blc.schedule.Off[0] := by rw [hoff]; rfl
  have honD : blc.schedule.On[0]?.getD [] = blc.schedule.On[0] := by rw [hon]; rfl
  have hstep := setStates_hwOk blc env hhw 0 blc.schedule.Off[0] blc.schedule.On[0] hoff hon
  obtain ⟨f1, f2, _, f4, new, f5, f6⟩ := setStates_frame blc env 0
  unfold BasicLightConductor.Start
  simp only [hlen, ne_eq, not_true_eq_false, if_false]
  cases hres : blc.setStatesForSecondInterval env 0 with
  | mk r blc' =>
    rw [hres] at hstep f1 f2 f4 f5
    simp only at hstep f1 f2 f4 f5
    rcases hstep with ⟨hall, hr⟩ | ⟨name, hname, hno, hr⟩
    · subst hr
      simp only
      have hlt : 0 < k := by
        rcases Nat.eq_zero_or_pos k with h | h
        · exfalso
          subst h
          obtain ⟨name, hname, hno⟩ := habs
          rw [honD, hoffD] at hname
          have := hall name hname
          rw [hno] at this
          exact Bool.noConfusion this
        · exact h
      obtain ⟨name, hname, hno, hfail, hticks, new', hcalls, hnew'⟩ :=
        tickLoop_fails_fast env hhw blc.schedule (fun nm => (blc.basicLights nm).isSome) k
          hlen hk hprev htake (blc.schedule.Off.length - 1) 1 blc' f1 f4 hlt (by omega)
          (by
            obtain ⟨name, hname, hno⟩ := habs
            exact ⟨name, hname, (hnone name).1 hno⟩)
      refine ⟨name, hname, (hnone name).2 hno, hfail, ?_, new ++ new', ?_, ?_⟩
      · rw [hticks, f2, List.range_eq_range', List.append_assoc]
        rfl
      · rw [hcalls, f5, List.append_assoc]
      · intro c hc
        rcases List.mem_append.1 hc with h | h
        · rw [f6 c h]; exact Nat.zero_le k
        · exact hnew' c h
    · subst hr
      simp only
      have hk0 : k = 0 := by
        rcases Nat.eq_zero_or_pos k with h | h
        · exact h
        · exfalso
          have := hprev 0 h name (by rw [honD, hoffD]; exact hname)
          rw [hno] at this
          exact Bool.noConfusion this
      subst hk0
      refine ⟨name, by rw [honD, hoffD]; exact hname, hno, rfl, ?_, new, f5, ?_⟩
      · rw [f2]; rfl
      · intro c hc
        rw [f6 c hc]

/-- Witness of `start_fails_fast`: the light `a` is registered, tick 1 of three names
`ghost`: the run fails at tick 1 naming `ghost`, and tick 2 is never started. -/
theorem start_fails_fast_witness :
    ∃ name,
      (name ∈ (NewBasicLightConductor (oneLight "a" 4)
            { On := [["a"], ["ghost"], ["a"]], Off := [[], [], []] }).schedule.On[1]?.getD [] ∨
        name ∈ (NewBasicLightConductor (oneLight "a" 4)
            { On := [["a"], ["ghost"], ["a"]], Off := [[], [], []] }).schedule.Off[1]?.getD []) ∧
      (NewBasicLightConductor (oneLight "a" 4)
          { On := [["a"], ["ghost"], ["a"]], Off := [[], [], []] }).basicLights name = none ∧
      ((NewBasicLightConductor (oneLight "a" 4)
          { On := [["a"], ["ghost"], ["a"]], Off := [[], [], []] }).Start
          (Env.quiet fun _ => [])).1 = .fail (.invalidAlias name 1) ∧
      ((NewBasicLightConductor (oneLight "a" 4)
          { On := [["a"], ["ghost"], ["a"]], Off := [[], [], []] }).Start
          (Env.quiet fun _ => [])).2.ticks
        = (NewBasicLightConductor (oneLight "a" 4)
            { On := [["a"], ["ghost"], ["a"]], Off := [[], [], []] }).ticks
          ++ List.range (1 + 1) ∧
      ∃ new : List Call,
        ((NewBasicLightConductor (oneLight "a" 4)
            { On := [["a"], ["ghost"], ["a"]], Off := [[], [], []] }).Start
            (Env.quiet fun _ => [])).2.calls
          = (NewBasicLightConductor (oneLight "a" 4)
              { On := [["a"], ["ghost"], ["a"]], Off := [[], [], []] }).calls ++ new ∧
        ∀ c ∈ new, c.tick ≤ 1 :=
  start_fails_fast
    (NewBasicLightConductor (oneLight "a" 4)
      { On := [["a"], ["ghost"], ["a"]], Off := [[], [], []] })
    (Env.quiet fun _ => []) 1 (by decide) (by decide)
    (by
      intro j hj name hname
      have hj0 : j = 0 := by omega
      subst hj0
      have hn : name = "a" := by
        simpa [NewBasicLightConductor] using hname
      subst hn
      decide)
    ⟨"ghost", by decide, by decide⟩
    (fun _ => rfl)
    (fun _ _ => rfl)

end light

end LightShowPi

namespace LightShowPi

namespace light

/-- Setting one more light, then a row, is setting the longer row. -/
theorem setRow_cons (d : Bool) (name : String) (row : List String)
    (st : String → Option Bool) :
    (fun n => if n ∈ row
        then (if n = name then (st n).map (fun _ => d) else st n).map (fun _ => d)
        else (if n = name then (st n).map (fun _ => d) else st n))
      = fun n => if n ∈ name :: row then (st n).map (fun _ => d) else st n := by
  funext n
  by_cases hn : n = name <;> by_cases hr : n ∈ row <;>
    simp [hn, hr, Option.map_map, Function.comp_def]

/-- The Off row alone is the tick of the specification with an empty On row. -/
theorem specTick_off_only (offRow : List String) (st : String → Option Bool) :
    (fun n => if n ∈ offRow then (st n).map (fun _ => false) else st n)
      = specTick [] offRow st := by
  funext n; simp [specTick]

/-- The On row alone is the tick of the specification with an empty Off row. -/
theorem specTick_on_only (onRow : List String) (st : String → Option Bool) :
    (fun n => if n ∈ onRow then (st n).map (fun _ => true) else st n)
      = specTick onRow [] st := by
  funext n; simp [specTick]

/-- The Off row applied first and the On row after it make the tick of the specification. -/
theorem specTick_off_then_on (onRow offRow : List String) (st : String → Option Bool) :
    specTick onRow [] (specTick [] offRow st) = specTick onRow offRow st := by
  funext n
  by_cases h1 : n ∈ onRow <;> by_cases h2 : n ∈ offRow <;>
    simp [specTick, h1, h2, Option.map_map]

/-- One light turned off ahead of a tick that does not turn it on. -/
theorem specTick_cons_off (name : String) (onRow offRow : List String)
    (st : String → Option Bool) (hname : name ∉ onRow) :
    specTick onRow offRow (fun n => if n = name then (st n).map (fun _ => false) else st n)
      = specTick onRow (name :: offRow) st := by
  funext n
  by_cases hn : n = name
  · subst hn
    by_cases h2 : n ∈ offRow <;> simp [specTick, hname, h2, Option.map_map]
  · by_cases h1 : n ∈ onRow <;> by_cases h2 : n ∈ offRow <;> simp [specTick, hn, h1, h2]

/-- One light turned on ahead of a tick that does not turn it off. -/
theorem specTick_cons_on (name : String) (onRow offRow : List String)
    (st : String → Option Bool) (hname : name ∉ offRow) :
    specTick onRow offRow (fun n => if n = name then (st n).map (fun _ => true) else st n)
      = specTick (name :: onRow) offRow st := by
  funext n
  by_cases hn : n = name
  · subst hn
    by_cases h1 : n ∈ onRow <;> simp [specTick, hname, h1, Option.map_map]
  · by_cases h1 : n ∈ onRow <;> by_cases h2 : n ∈ offRow <;> simp [specTick, hn, h1, h2]

/-- With working hardware, visiting a registered alias sets its cached flag and no other. -/
theorem visit_state (env : Env) (hhw : ∀ n, env.hwOk n = true) (i : Nat) (op : Op)
    (name : String) (blc : BasicLightConductor)
    (hreg : (blc.basicLights name).isSome = true) :
    (visit env i op name blc).2.state
      = fun n => if n = name then (blc.state n).map (fun _ => decide (op = Op.on))
          else blc.state n := by
  rw [(visit_registered env hhw i op name blc hreg).2]
  funext n
  by_cases hn : n = name
  · subst hn
    cases hl : blc.basicLights n with
    | none => simp [hl] at hreg
    | some l => simp [BasicLightConductor.state, hl]
  · simp [hn]

/-- With working hardware, a goroutine alone over a row of registered aliases sets the
cached flag of each and of no other light. -/
theorem rangeAlone_state (env : Env) (hhw : ∀ n, env.hwOk n = true) (i : Nat) (op : Op)
    (row : List String) :
    ∀ blc : BasicLightConductor,
      (∀ name ∈ row, (blc.basicLights name).isSome = true) →
      (rangeAlone env i op row blc).2.state
        = fun n => if n ∈ row then (blc.state n).map (fun _ => decide (op = Op.on))
            else blc.state n := by
  induction row with
  | nil => intro blc _; funext n; simp [rangeAlone]
  | cons name row ih =>
    intro blc hreg
    have hl := hreg name (List.mem_cons_self _ _)
    have hv := (visit_registered env hhw i op name blc hl).1
    have hs := visit_state env hhw i op name blc hl
    have hf := visit_frame env i op name blc
    unfold rangeAlone
    cases hres : visit env i op name blc with
    | mk err blc' =>
      rw [hres] at hv hs hf
      simp only at hv hs
      subst hv
      simp only
      rw [ih blc' (fun nm hnm => by
        rw [hf.2.2.2.1 nm]; exact hreg nm (List.mem_cons_of_mem _ hnm)), hs]
      exact setRow_cons _ name row blc.state

/-- With working hardware, registered aliases and an On row disjoint from the Off row, the
cached flags after the two goroutines are those of the tick of the specification, whatever
the interleaving. -/
theorem interleave_state (env : Env) (hhw : ∀ n, env.hwOk n = true) (i : Nat)
    (order : List Bool) :
    ∀ (offRow onRow : List String) (blc : BasicLightConductor),
      (∀ name ∈ onRow, name ∉ offRow) →
      (∀ name, name ∈ onRow ∨ name ∈ offRow → (blc.basicLights name).isSome = true) →
      (interleave env i order (some offRow) (some onRow) blc).2.state
        = specTick onRow offRow blc.state := by
  have hon : ∀ (onRow : List String) (blc : BasicLightConductor),
      (∀ name ∈ onRow, (blc.basicLights name).isSome = true) →
      (rangeAlone env i .on onRow blc).2.state = specTick onRow [] blc.state := by
    intro onRow blc h
    rw [rangeAlone_state env hhw i .on onRow blc h, ← specTick_on_only]
    simp
  have hoff : ∀ (offRow : List String) (blc : BasicLightConductor),
      (∀ name ∈ offRow, (blc.basicLights name).isSome = true) →
      (rangeAlone env i .off offRow blc).2.state = specTick [] offRow blc.state := by
    intro offRow blc h
    rw [rangeAlone_state env hhw i .off offRow blc h, ← specTick_off_only]
    simp
  induction order with
  | nil =>
    intro offRow onRow blc _ hreg
    simp only [interleave, finishOn]
    have hf := rangeAlone_frame env i .off offRow blc
    rw [hon onRow _ (fun nm hnm => by rw [hf.2.2.2.1 nm]; exact hreg nm (Or.inl hnm)),
      hoff offRow blc (fun nm hnm => hreg nm (Or.inr hnm))]
    exact specTick_off_then_on onRow offRow blc.state
  | cons b order ih =>
    intro offRow onRow blc hdisj hreg
    cases b with
    | true =>
      cases offRow with
      | nil =>
        simp only [interleave, finishOn]
        exact hon onRow blc (fun nm hnm => hreg nm (Or.inl hnm))
      | cons name offRow =>
        have hl := hreg name (Or.inr (List.mem_cons_self _ _))
        have hv := (visit_registered env hhw i .off name blc hl).1
        have hs := visit_state env hhw i .off name blc hl
        have hf := visit_frame env i .off name blc
        simp only [interleave]
        cases hres : visit env i .off name blc with
        | mk err blc' =>
          rw [hres] at hv hs hf
          simp only at hv hs
          subst hv
          simp only
          rw [ih offRow onRow blc'
            (fun nm hnm hin => hdisj nm hnm (List.mem_cons_of_mem _ hin))
            (fun nm hnm => by
              rw [hf.2.2.2.1 nm]
              rcases hnm with h | h
              · exact hreg nm (Or.inl h)
              · exact hreg nm (Or.inr (List.mem_cons_of_mem _ h))), hs]
          have hname : name ∉ onRow := fun hin => hdisj name hin (List.mem_cons_self _ _)
          simpa using specTick_cons_off name onRow offRow blc.state hname
    | false =>
      cases onRow with
      | nil =>
        simp only [interleave, finishOff]
        exact hoff offRow blc (fun nm hnm => hreg nm (Or.inr hnm))
      | cons name onRow =>
        have hl := hreg name (Or.inl (List.mem_cons_self _ _))
        have hv := (visit_registered env hhw i .on name blc hl).1
        have hs := visit_state env hhw i .on name blc hl
        have hf := visit_frame env i .on name blc
        simp only [interleave]
        cases hres : visit env i .on name blc with
        | mk err blc' =>
          rw [hres] at hv hs hf
          simp only at hv hs
          subst hv
          simp only
          rw [ih offRow onRow blc'
            (fun nm hnm hin => hdisj nm (List.mem_cons_of_mem _ hnm) hin)
            (fun nm hnm => by
              rw [hf.2.2.2.1 nm]
              rcases hnm with h | h
              · exact hreg nm (Or.inl (List.mem_cons_of_mem _ h))
              · exact hreg nm (Or.inr h)), hs]
          have hname : name ∉ offRow := fun hin => hdisj name (List.mem_cons_self _ _) hin
          simpa using specTick_cons_on name onRow offRow blc.state hname

/-- With working hardware, a tick whose rows are in range, disjoint and name registered
aliases only returns `nil` and leaves the cached flags of the tick of the specification. -/
theorem setStates_applies_tick (blc : BasicLightConductor) (env : Env)
    (hhw : ∀ n, env.hwOk n = true) (i : Nat) (offRow onRow : List String)
    (hoff : blc.schedule.Off[i]? = some offRow) (hon : blc.schedule.On[i]? = some onRow)
    (hdisj : ∀ name ∈ onRow, name ∉ offRow)
    (hreg : ∀ name, name ∈ onRow ∨ name ∈ offRow → (blc.basicLights name).isSome = true) :
    (blc.setStatesForSecondInterval env i).1 = .ok () ∧
      (blc.setStatesForSecondInterval env i).2.state = specTick onRow offRow blc.state := by
  constructor
  · rcases setStates_hwOk blc env hhw i offRow onRow hoff hon with ⟨_, h⟩ | ⟨name, hname, hno, _⟩
    · exact h
    · have := hreg name hname
      rw [hno] at this
      exact Bool.noConfusion this
  · have hst := interleave_state env hhw i (env.order i) offRow onRow
      { blc with ticks := blc.ticks ++ [i] } hdisj hreg
    unfold BasicLightConductor.setStatesForSecondInterval
    rw [hoff, hon]
    cases hres : interleave env i (env.order i) (some offRow) (some onRow)
        { blc with ticks := blc.ticks ++ [i] } with
    | mk tickEnd blc' =>
      rw [hres] at hst
      simp only at hst
      cases tickEnd with
      | crashed => exact hst
      | returned offErr onErr =>
        simp only
        cases wait (env.offErrFirst i) offErr onErr <;> exact hst

end light

end LightShowPi

namespace LightShowPi

namespace light

/-- The loop of `Start` from index `i` to the end of a schedule whose rows name registered
aliases only and are disjoint tick by tick, with working hardware and the context never
done: every remaining tick is applied once, in order, after one wait each, and the cached
flags are those of the remaining ticks of the specification. -/
theorem tickLoop_runs (env : Env) (hhw : ∀ n, env.hwOk n = true)
    (hctx : ∀ j, (env.ready j).takesDone = false)
    (schedule : BasicLightConductorSchedule) (registered : String → Bool)
    (hlen : schedule.On.length = schedule.Off.length)
    (hreg : ∀ (j : Nat) (name : String),
      name ∈ schedule.On[j]?.getD [] ∨ name ∈ schedule.Off[j]?.getD [] →
        registered name = true)
    (hdisj : ∀ (j : Nat) (name : String), name ∈ schedule.On[j]?.getD [] → name ∉ schedule.Off[j]?.getD [])
    (n : Nat) :
    ∀ (i : Nat) (blc : BasicLightConductor), blc.schedule = schedule →
      (∀ name, (blc.basicLights name).isSome = registered name) →
      i + n = schedule.Off.length →
      (BasicLightConductor.tickLoop env n i blc).1 = .ok () ∧
        (BasicLightConductor.tickLoop env n i blc).2.ticks = blc.ticks ++ List.range' i n ∧
        (BasicLightConductor.tickLoop env n i blc).2.selects
          = blc.selects ++ List.range' i n ∧
        (BasicLightConductor.tickLoop env n i blc).2.state
          = ((schedule.On.zip schedule.Off).drop i).foldl
              (fun st rows => specTick rows.1 rows.2 st) blc.state := by
  induction n with
  | zero =>
    intro i blc _ _ hin
    have hdrop : (schedule.On.zip schedule.Off).drop i = [] := by
      apply List.drop_eq_nil_of_le
      rw [List.length_zip, hlen]
      simp only [Nat.min_self]
      omega
    simp [BasicLightConductor.tickLoop, hdrop]
  | succ n ih =>
    intro i blc hsched hsame hin
    have hi : i < schedule.Off.length := by omega
    have hi' : i < schedule.On.length := by omega
    have hiz : i < (schedule.On.zip schedule.Off).length := by
      rw [List.length_zip, hlen]; simp only [Nat.min_self]; exact hi
    have hoff : blc.schedule.Off[i]? = some schedule.Off[i] := by
      rw [hsched]; exact List.getElem?_eq_getElem hi
    have hon : blc.schedule.On[i]? = some schedule.On[i] := by
      rw [hsched]; exact List.getElem?_eq_getElem hi'
    have hoffD : schedule.Off[i]?.getD [] = schedule.Off[i] := by
      rw [List.getElem?_eq_getElem hi]; rfl
    have honD : schedule.On[i]?.getD [] = schedule.On[i] := by
      rw [List.getElem?_eq_getElem hi']; rfl
    have hstep := setStates_applies_tick { blc with selects := blc.selects ++ [i] } env hhw i
      schedule.Off[i] schedule.On[i] hoff hon
      (fun nm hnm => by
        have := hdisj i nm (by rw [honD]; exact hnm)
        rwa [hoffD] at this)
      (fun nm hnm => by
        show (blc.basicLights nm).isSome = true
        rw [hsame nm]
        exact hreg i nm (by rw [honD, hoffD]; exact hnm))
    obtain ⟨f1, f2, f3, f4, _⟩ :=
      setStates_frame { blc with selects := blc.selects ++ [i] } env i
    unfold BasicLightConductor.tickLoop
    simp only [hctx i, Bool.false_eq_true, if_false]
    cases hres : BasicLightConductor.setStatesForSecondInterval
        { blc with selects := blc.selects ++ [i] } env i with
    | mk r blc' =>
      rw [hres] at hstep f1 f2 f3 f4
      simp only at hstep f1 f2 f3 f4
      obtain ⟨hr, hst⟩ := hstep
      subst hr
      simp only
      obtain ⟨g1, g2, g3, g4⟩ := ih (i + 1) blc' (f1.trans hsched)
        (fun nm => (f4 nm).trans (hsame nm)) (by omega)
      refine ⟨g1, ?_, ?_, ?_⟩
      · rw [g2, f2, List.range'_succ]; simp
      · rw [g3, f3, List.range'_succ]; simp
      · rw [g4, hst, List.drop_eq_getElem_cons hiz, List.foldl_cons, List.getElem_zip]
        rfl

/-- C9: for a schedule with `len(On) == len(Off) == N >= 1` whose rows name registered
aliases only and in which `On[i]` and `Off[i]` are disjoint for every `i`, with no hardware
write failing and the context never done, whatever the interleaving of the goroutines:
`Start` returns `nil`; `setStatesForSecondInterval` is called for 0, 1, ..., N-1, once each
and in that order; the `select` is entered once for each of 1, ..., N-1, so not at all when
`N == 1`; and the cached flag of every light at the end is the one obtained by folding the
ticks of the specification, in order, over the initial flags. -/
theorem start_runs_schedule (blc : BasicLightConductor) (env : Env)
    (hlen : blc.schedule.On.length = blc.schedule.Off.length)
    (hpos : 1 ≤ blc.schedule.Off.length)
    (hreg : ∀ (j : Nat) (name : String),
      name ∈ blc.schedule.On[j]?.getD [] ∨ name ∈ blc.schedule.Off[j]?.getD [] →
        (blc.basicLights name).isSome = true)
    (hdisj : ∀ (j : Nat) (name : String),
      name ∈ blc.schedule.On[j]?.getD [] → name ∉ blc.schedule.Off[j]?.getD [])
    (hhw : ∀ n, env.hwOk n = true)
    (hctx : ∀ j, (env.ready j).ctxDone = false) :
    (blc.Start env).1 = .ok () ∧
      (blc.Start env).2.ticks = blc.ticks ++ List.range blc.schedule.Off.length ∧
      (blc.Start env).2.selects
        = blc.selects ++ List.range' 1 (blc.schedule.Off.length - 1) ∧
      (blc.schedule.Off.length = 1 → (blc.Start env).2.selects = blc.selects) ∧
      (blc.Start env).2.state = specRun blc.schedule blc.state := by
  have htake : ∀ j, (env.ready j).takesDone = false := by
    intro j
    have := hctx j
    cases hr : env.ready j <;> simp [hr, SelectReady.ctxDone, SelectReady.takesDone] at this ⊢
  have h0 : 0 < blc.schedule.Off.length := by omega
  have h0' : 0 < blc.schedule.On.length := by omega
  have h0z : 0 < (blc.schedule.On.zip blc.schedule.Off).length := by
    rw [List.length_zip, hlen]; simp only [Nat.min_self]; exact h0
  have hoff : blc.schedule.Off[0]? = some blc.schedule.Off[0] := List.getElem?_eq_getElem h0
  have hon : blc.schedule.On[0]? = some blc.schedule.On[0] := List.getElem?_eq_getElem h0'
  have hoffD : blc.schedule.Off[0]?.getD [] = blc.schedule.Off[0] := by rw [hoff]; rfl
  have honD : blc.schedule.On[0]?.getD [] = blc.schedule.On[0] := by rw [hon]; rfl
  have hstep := setStates_applies_tick blc env hhw 0 blc.schedule.Off[0] blc.schedule.On[0]
    hoff hon
    (fun nm hnm => by
      have := hdisj 0 nm (by rw [honD]; exact hnm)
      rwa [hoffD] at this)
    (fun nm hnm => hreg 0 nm (by rw [honD, hoffD]; exact hnm))
  obtain ⟨f1, f2, f3, f4, _⟩ := setStates_frame blc env 0
  have hmain : (blc.Start env).1 = .ok () ∧
      (blc.Start env).2.ticks = blc.ticks ++ List.range blc.schedule.Off.length ∧
      (blc.Start env).2.selects
        = blc.selects ++ List.range' 1 (blc.schedule.Off.length - 1) ∧
      (blc.Start env).2.state = specRun blc.schedule blc.state := by
    unfold BasicLightConductor.Start
    simp only [hlen, ne_eq, not_true_eq_false, if_false]
    cases hres : blc.setStatesForSecondInterval env 0 with
    | mk r blc' =>
      rw [hres] at hstep f1 f2 f3 f4
      simp only at hstep f1 f2 f3 f4
      obtain ⟨hr, hst⟩ := hstep
      subst hr
      simp only
      obtain ⟨g1, g2, g3, g4⟩ := tickLoop_runs env hhw htake blc.schedule
        (fun nm => (blc.basicLights nm).isSome) hlen hreg hdisj
        (blc.schedule.Off.length - 1) 1 blc' f1 f4 (by omega)
      refine ⟨g1, ?_, ?_, ?_⟩
      · rw [g2, f2, List.range_eq_range', List.append_assoc]
        congr 1
        have hcount : blc.schedule.Off.length = (blc.schedule.Off.length - 1) + 1 := by omega
        conv_rhs => rw [hcount, List.range'_succ]
        rfl
      · rw [g3, f3]
      · rw [g4, hst]
        unfold specRun
        conv_rhs => rw [← List.drop_zero (blc.schedule.On.zip blc.schedule.Off),
          List.drop_eq_getElem_cons h0z, List.foldl_cons, List.getElem_zip]
  obtain ⟨m1, m2, m3, m4⟩ := hmain
  refine ⟨m1, m2, m3, ?_, m4⟩
  intro hone
  rw [m3, hone]
  simp

/-- Witness of `start_runs_schedule`: one light, turned on at tick 0, off at tick 1 and on
again at tick 2; it is on at the end and the three ticks ran in order. -/
theorem start_runs_schedule_witness :
    ((NewBasicLightConductor (oneLight "a" 4)
        { On := [["a"], [], ["a"]], Off := [[], ["a"], []] }).Start
        (Env.quiet fun _ => [true, false])).1 = .ok () ∧
      ((NewBasicLightConductor (oneLight "a" 4)
        { On := [["a"], [], ["a"]], Off := [[], ["a"], []] }).Start
        (Env.quiet fun _ => [true, false])).2.ticks = [0, 1, 2] ∧
      ((NewBasicLightConductor (oneLight "a" 4)
        { On := [["a"], [], ["a"]], Off := [[], ["a"], []] }).Start
        (Env.quiet fun _ => [true, false])).2.state "a" = some true := by
  have h := start_runs_schedule
    (NewBasicLightConductor (oneLight "a" 4)
      { On := [["a"], [], ["a"]], Off := [[], ["a"], []] })
    (Env.quiet fun _ => [true, false]) (by decide) (by decide)
    (by
      intro j name hname
      have hn : name = "a" := by
        match j with
        | 0 => simpa [NewBasicLightConductor] using hname
        | 1 => simpa [NewBasicLightConductor] using hname
        | 2 => simpa [NewBasicLightConductor] using hname
        | j + 3 => simp [NewBasicLightConductor] at hname
      subst hn
      decide)
    (by
      intro j name hname
      match j with
      | 0 => simp [NewBasicLightConductor]
      | 1 => simp [NewBasicLightConductor] at hname
      | 2 => simp [NewBasicLightConductor]
      | j + 3 => simp [NewBasicLightConductor] at hname)
    (fun _ => rfl)
    (fun _ => rfl)
  refine ⟨h.1, h.2.1, ?_⟩
  rw [h.2.2.2.2]
  decide

end light

end LightShowPi
